import Mathlib

/-!
Verification of the fantoch EPaxos protocol core and its multi-decree
Flexible Paxos synod, as a shallow embedding of the Rust sources
`fantoch_ps/src/protocol/epaxos.rs` and
`fantoch_ps/src/protocol/common/synod/multi.rs`.

Rust `HashMap`s are embedded as association lists with key-replacing
insertion, `HashSet`s as duplicate-free insertion lists; mutation is
explicit state passing, and functions that can `panic!`/`assert!` return
`Option` (with `none` for an abort).
-/

namespace Fantoch

abbrev ProcessId := Nat
abbrev Ballot := Nat
abbrev Slot := Nat

/-- A `Dot` is a pair `(ProcessId, seq)` identifying a command instance. -/
structure Dot where
  source : ProcessId
  sequence : Nat
  deriving DecidableEq, Repr

/-- Association-list insert with key replacement (embeds `HashMap::insert`'s
effect on the stored map). -/
def listInsert {α β : Type} [DecidableEq α] : List (α × β) → α → β → List (α × β)
  | [], k, v => [(k, v)]
  | (k', v') :: rest, k, v =>
      if k' = k then (k, v) :: rest else (k', v') :: listInsert rest k v

/-- Association-list lookup (embeds `HashMap::get`). -/
def listLookup {α β : Type} [DecidableEq α] : List (α × β) → α → Option β
  | [], _ => none
  | (k', v') :: rest, k => if k' = k then some v' else listLookup rest k

/-- Association-list removal of a key (embeds `HashMap::remove` /
`Entry::remove`). -/
def listRemove {α β : Type} [DecidableEq α] : List (α × β) → α → List (α × β)
  | [], _ => []
  | (k', v') :: rest, k =>
      if k' = k then rest else (k', v') :: listRemove rest k

/-- Duplicate-free insertion (embeds `HashSet::insert`'s effect). -/
def setInsert {α : Type} [DecidableEq α] (s : List α) (a : α) : List α :=
  if a ∈ s then s else a :: s

/-! ## Multi-decree Flexible Paxos synod
Embeds `fantoch_ps/src/protocol/common/synod/multi.rs`. -/

/-- Messages of the multi-decree synod (`MultiSynodMessage` in the source). -/
inductive MultiSynodMessage (V : Type) where
  | MChosen (slot : Slot) (v : V)
  | MForwardSubmit (v : V)
  | MSpawnCommander (b : Ballot) (slot : Slot) (v : V)
  | MPrepare (b : Ballot)
  | MAccept (b : Ballot) (slot : Slot) (v : V)
  | MPromise (b : Ballot) (accepted : List (Slot × Ballot × V))
  | MAccepted (b : Ballot) (slot : Slot)
  deriving DecidableEq, Repr

/-- The `Leader` agent: whether we believe to be leader, the ballot used in
accepts, and the last slot used. -/
structure Leader where
  process_id : ProcessId
  is_leader : Bool
  ballot : Ballot
  last_slot : Slot
  deriving DecidableEq, Repr

/-- `Leader::new`: leader iff our id equals the initial leader's; initial
ballot is our id when leader, `0` otherwise; last slot starts at `0`. -/
def Leader.new (process_id initial_leader : ProcessId) : Leader :=
  let is_leader := decide (process_id = initial_leader)
  { process_id
    is_leader
    ballot := if is_leader then process_id else 0
    last_slot := 0 }

/-- `Leader::try_submit`: at the leader, bump the slot and return the ballot
with the fresh slot; at a non-leader return `none` unchanged. -/
def Leader.try_submit (l : Leader) : Option (Ballot × Slot) × Leader :=
  if l.is_leader then
    (some (l.ballot, l.last_slot + 1), { l with last_slot := l.last_slot + 1 })
  else
    (none, l)

/-- A per-slot `Commander`: collects the set of accepting processes for its
ballot, until `f + 1` of them have accepted. -/
structure Commander (V : Type) where
  f : Nat
  ballot : Ballot
  value : V
  accepts : List ProcessId
  deriving DecidableEq, Repr

/-- `Commander::spawn`. -/
def Commander.spawn {V : Type} (f : Nat) (ballot : Ballot) (value : V) :
    Commander V :=
  { f, ballot, value, accepts := [] }

/-- `Commander::handle_accepted`: record the sender if the ballot matches and
report whether the set of accepts just reached size `f + 1`. -/
def Commander.handle_accepted {V : Type} (c : Commander V) (from_ : ProcessId)
    (b : Ballot) : Bool × Commander V :=
  if c.ballot = b then
    let accepts := setInsert c.accepts from_
    (decide (accepts.length = c.f + 1), { c with accepts })
  else
    (false, c)

/-- `Commander::destroy`: asserts that exactly `f + 1` accepts were gathered
(`none` embeds the assertion failure) and yields the watched value. -/
def Commander.destroy {V : Type} (c : Commander V) : Option V :=
  if c.accepts.length = c.f + 1 then some c.value else none

/-- The `Acceptor` agent: current ballot and accepted proposals per slot. -/
structure Acceptor (V : Type) where
  ballot : Ballot
  accepted : List (Slot × Ballot × V)
  deriving DecidableEq, Repr

/-- `Acceptor::new`: immediately joins the initial leader's first ballot. -/
def Acceptor.new {V : Type} (initial_leader : ProcessId) : Acceptor V :=
  { ballot := initial_leader, accepted := [] }

/-- `Acceptor::handle_prepare`: promise only ballots strictly above the
current one, replying with the accepted proposals. -/
def Acceptor.handle_prepare {V : Type} (a : Acceptor V) (b : Ballot) :
    Option (MultiSynodMessage V) × Acceptor V :=
  if b > a.ballot then
    (some (.MPromise b a.accepted), { a with ballot := b })
  else
    (none, a)

/-- `Acceptor::handle_accept`: accept ballots at or above the current one,
recording the proposal for the slot and replying `MAccepted`. -/
def Acceptor.handle_accept {V : Type} (a : Acceptor V) (b : Ballot)
    (slot : Slot) (value : V) : Option (MultiSynodMessage V) × Acceptor V :=
  if b ≥ a.ballot then
    (some (.MAccepted b slot),
      { ballot := b, accepted := listInsert a.accepted slot (b, value) })
  else
    (none, a)

/-- `Acceptor::gc`: drop the accepted proposals of the stable slots. -/
def Acceptor.gc {V : Type} (a : Acceptor V) (stable : List Slot) : Acceptor V :=
  { a with accepted := stable.foldl (fun acc slot => listRemove acc slot) a.accepted }

/-- The `MultiSynod` object colocating leader, acceptor and commanders. -/
structure MultiSynod (V : Type) where
  n : Nat
  f : Nat
  leader : Leader
  acceptor : Acceptor V
  commanders : List (Slot × Commander V)
  deriving DecidableEq, Repr

/-- `MultiSynod::new`. -/
def MultiSynod.new (V : Type) (process_id initial_leader : ProcessId)
    (n f : Nat) : MultiSynod V :=
  { n, f
    leader := Leader.new process_id initial_leader
    acceptor := Acceptor.new initial_leader
    commanders := [] }

/-- `MultiSynod::submit`: a leader spawns a commander for a fresh slot, a
non-leader forwards the value. -/
def MultiSynod.submit {V : Type} (s : MultiSynod V) (value : V) :
    MultiSynodMessage V × MultiSynod V :=
  let r := s.leader.try_submit
  match r.1 with
  | some bs =>
      (.MSpawnCommander bs.1 bs.2 value, { s with leader := r.2 })
  | none =>
      (.MForwardSubmit value, { s with leader := r.2 })

/-- `MultiSynod::handle_spawn_commander`: create the commander for the slot
(asserting no prior commander exists; `none` embeds the assertion failure)
and emit the accept message. -/
def MultiSynod.handle_spawn_commander {V : Type} (s : MultiSynod V)
    (ballot : Ballot) (slot : Slot) (value : V) :
    Option (MultiSynodMessage V × MultiSynod V) :=
  let commander := Commander.spawn s.f ballot value
  match listLookup s.commanders slot with
  | some _ => none
  | none =>
      some (.MAccept ballot slot value,
        { s with commanders := listInsert s.commanders slot commander })

/-- `MultiSynod::handle_maccepted`: feed the accepted message to the slot's
commander if one exists; on the deciding accept, destroy the commander and
emit `MChosen`. The outer `Option` embeds `Commander::destroy`'s assertion. -/
def MultiSynod.handle_maccepted {V : Type} (s : MultiSynod V)
    (from_ : ProcessId) (ballot : Ballot) (slot : Slot) :
    Option (Option (MultiSynodMessage V) × MultiSynod V) :=
  match listLookup s.commanders slot with
  | some commander =>
      let r := commander.handle_accepted from_ ballot
      let chosen := r.1
      let commander' := r.2
      if chosen then
        match commander'.destroy with
        | some value =>
            some (some (.MChosen slot value),
              { s with commanders := listRemove s.commanders slot })
        | none => none
      else
        some (none, { s with commanders := listInsert s.commanders slot commander' })
  | none => some (none, s)

/-- `MultiSynod::handle`: dispatch to the proper agent; `MPromise` handling is
a `todo!` and `MChosen`/`MForwardSubmit` are `panic!`s in the source, all
embedded as `none`. -/
def MultiSynod.handle {V : Type} (s : MultiSynod V) (from_ : ProcessId)
    (msg : MultiSynodMessage V) :
    Option (Option (MultiSynodMessage V) × MultiSynod V) :=
  match msg with
  | .MSpawnCommander b slot value =>
      (s.handle_spawn_commander b slot value).map (fun r => (some r.1, r.2))
  | .MPrepare b =>
      let r := s.acceptor.handle_prepare b
      some (r.1, { s with acceptor := r.2 })
  | .MAccept b slot value =>
      let r := s.acceptor.handle_accept b slot value
      some (r.1, { s with acceptor := r.2 })
  | .MPromise _ _ => none
  | .MAccepted b slot => s.handle_maccepted from_ b slot
  | .MChosen _ _ => none
  | .MForwardSubmit _ => none

/-- `MultiSynod::gc`. -/
def MultiSynod.gc {V : Type} (s : MultiSynod V) (stable : List Slot) :
    MultiSynod V :=
  { s with acceptor := s.acceptor.gc stable }

/-! ## EPaxos protocol core
Embeds `fantoch_ps/src/protocol/epaxos.rs`. Supporting types that the repo
keeps in modules outside the provided sources (`VClock` from the `threshold`
crate, `Command`, `BaseProcess`, `CommandsInfo`, `KeyClocks`, `QuorumClocks`
and the per-dot single-decree `Synod`) are modelled from the specification. -/

/-- Modelled from the spec: `VClock over ProcessId` from the `threshold`
crate — a vector clock supporting `join`, `≤` and per-process max. Entry
`i` is the frontier of process `i + 1`. -/
abbrev VClock := List Nat

/-- Modelled from the spec: pointwise-max join of two vector clocks. -/
def vjoin : VClock → VClock → VClock
  | [], ys => ys
  | xs, [] => xs
  | x :: xs, y :: ys => max x y :: vjoin xs ys

/-- Modelled from the spec: the bottom clock for `n` processes. -/
def vbottom (n : Nat) : VClock := List.replicate n 0

/-- Modelled from the spec: record dot `(source, sequence)` in a clock by a
per-process max at position `source - 1`. -/
def vbump : VClock → Nat → Nat → VClock
  | [], _, _ => []
  | x :: xs, 0, sequence => max x sequence :: xs
  | x :: xs, idx + 1, sequence => x :: vbump xs idx sequence

/-- Modelled from the spec: a `Command` is an opaque payload with a client
request identifier (RIFL) and the set of keys it touches; a noop is the
absence of a command. -/
structure Command where
  rifl : Nat
  keys : List String
  deriving DecidableEq, Repr

/-- A `ConsensusValue` pairs an optional command (noop if `none`) with its
dependency clock. -/
structure ConsensusValue where
  cmd : Option Command
  clock : VClock
  deriving DecidableEq, Repr

/-- `ConsensusValue::new`: the bottom value for `n` processes. -/
def ConsensusValue.new (n : Nat) : ConsensusValue :=
  { cmd := none, clock := vbottom n }

/-- `ConsensusValue::with`. -/
def ConsensusValue.with_ (cmd : Option Command) (clock : VClock) :
    ConsensusValue :=
  { cmd, clock }

/-- Modelled from the spec: `QuorumClocks`, the aggregator of the clocks
reported by fast-quorum members, deliberately sized `fq - 1` so that the
coordinator's own clock is excluded. -/
structure QuorumClocks where
  expected : Nat
  clocks : List (ProcessId × VClock)
  deriving DecidableEq, Repr

/-- Modelled from the spec: a fresh aggregator expecting `expected` clocks. -/
def QuorumClocks.new (expected : Nat) : QuorumClocks :=
  { expected, clocks := [] }

/-- Modelled from the spec: merge the clock reported by a process into the
aggregator (keyed by the reporting process). -/
def QuorumClocks.add (q : QuorumClocks) (from_ : ProcessId) (clock : VClock) :
    QuorumClocks :=
  { q with clocks := listInsert q.clocks from_ clock }

/-- Modelled from the spec: whether all expected clocks have been received. -/
def QuorumClocks.all (q : QuorumClocks) : Bool :=
  decide (q.clocks.length = q.expected)

/-- Modelled from the spec: the join of all reported clocks together with
the flag telling whether all reports are pairwise equal. -/
def QuorumClocks.union (q : QuorumClocks) : VClock × Bool :=
  match q.clocks with
  | [] => ([], true)
  | (_, c) :: rest =>
      (rest.foldl (fun acc p => vjoin acc p.2) c,
        rest.all (fun p => decide (p.2 = c)))

/-- Modelled from the spec: the key-clocks oracle — per key, the clock of
the commands registered on that key. -/
structure KeyClocks where
  n : Nat
  clocks : List (String × VClock)
  deriving DecidableEq, Repr

/-- Modelled from the spec: `KeyClocks::new`. -/
def KeyClocks.new (n : Nat) : KeyClocks :=
  { n, clocks := [] }

/-- Modelled from the spec: `add(dot, cmd, past?)` returns the union of the
clocks of all commands previously registered on any key touched by `cmd`
(joined with `past` when given, and not containing the command's own dot),
then registers `(dot, cmd)` on its keys. -/
def KeyClocks.add (kc : KeyClocks) (dot : Dot) (cmd : Option Command)
    (past : Option VClock) : VClock × KeyClocks :=
  let keys := match cmd with
    | some c => c.keys
    | none => []
  let base := past.getD (vbottom kc.n)
  let clock := keys.foldl
    (fun acc k => vjoin acc ((listLookup kc.clocks k).getD (vbottom kc.n)))
    base
  let clocks := keys.foldl
    (fun m k =>
      listInsert m k
        (vbump ((listLookup m k).getD (vbottom kc.n)) (dot.source - 1)
          dot.sequence))
    kc.clocks
  (clock, { kc with clocks })

/-- Messages of the per-dot single-decree synod (`SynodMessage` in the
source, which is outside the provided sources). -/
inductive SynodMessage where
  | MAccept (b : Ballot) (value : ConsensusValue)
  | MAccepted (b : Ballot)
  | MChosen (value : ConsensusValue)
  deriving DecidableEq, Repr

/-- Modelled from the spec: the per-dot single-decree synod — a consensus
instance initialized with a bottom value, offering `maybe_set_value`,
`value`, `skip_prepare` and a `handle` for accept/accepted/chosen
messages (phase-1 quorum `n - f`, phase-2 quorum `f + 1`). -/
structure Synod where
  process_id : ProcessId
  n : Nat
  f : Nat
  ballot : Ballot
  value_set : Bool
  val : ConsensusValue
  chosen : Bool
  accepts : List ProcessId
  deriving DecidableEq, Repr

/-- Modelled from the spec: `Synod::new` with a bottom initial value. -/
def Synod.new (process_id : ProcessId) (n f : Nat)
    (initial_value : ConsensusValue) : Synod :=
  { process_id, n, f
    ballot := 0
    value_set := false
    val := initial_value
    chosen := false
    accepts := [] }

/-- `Synod::value`. -/
def Synod.value (s : Synod) : ConsensusValue := s.val

/-- Modelled from the spec: `maybe_set_value` sets the value only once,
reporting whether it did. -/
def Synod.maybe_set_value (s : Synod) (v : ConsensusValue) : Bool × Synod :=
  if s.value_set then (false, s)
  else (true, { s with value_set := true, val := v })

/-- Modelled from the spec: `skip_prepare` jumps to the coordinator's own
ballot (its process id, which all acceptors join on bootstrap), skipping
phase 1. -/
def Synod.skip_prepare (s : Synod) : Ballot × Synod :=
  (s.process_id, { s with ballot := s.process_id })

/-- Modelled from the spec: the single-decree synod handler. `MAccept` at a
ballot at or above the current one is accepted (an already chosen instance
replies `MChosen` instead); `MAccepted` at the current ballot records the
sender and reports `MChosen` when `f + 1` distinct accepts are gathered;
`MChosen` records the decided value and returns `none`. -/
def Synod.handle (s : Synod) (from_ : ProcessId) (msg : SynodMessage) :
    Option SynodMessage × Synod :=
  match msg with
  | .MAccept b v =>
      if s.chosen then (some (.MChosen s.val), s)
      else if b ≥ s.ballot then
        (some (.MAccepted b),
          { s with ballot := b, value_set := true, val := v })
      else (none, s)
  | .MAccepted b =>
      if s.chosen then (none, s)
      else if b = s.ballot then
        let accepts := setInsert s.accepts from_
        if accepts.length = s.f + 1 then
          (some (.MChosen s.val), { s with accepts, chosen := true })
        else (none, { s with accepts })
      else (none, s)
  | .MChosen v =>
      (none, { s with chosen := true, value_set := true, val := v })

/-- `Status` of commands. -/
inductive Status where
  | START
  | COLLECT
  | COMMIT
  deriving DecidableEq, Repr

/-- `EPaxosInfo`: the per-dot command information. -/
structure EPaxosInfo where
  status : Status
  quorum : List ProcessId
  synod : Synod
  quorum_clocks : QuorumClocks
  deriving DecidableEq, Repr

/-- `EPaxosInfo::new` (the `Info` instance): bottom info, with the
`QuorumClocks` aggregator sized `fast_quorum_size - 1` since the clock
reported by the coordinator is not considered in the fast-path condition. -/
def EPaxosInfo.new (process_id : ProcessId) (n f fast_quorum_size : Nat) :
    EPaxosInfo :=
  { status := .START
    quorum := []
    synod := Synod.new process_id n f (ConsensusValue.new n)
    quorum_clocks := QuorumClocks.new (fast_quorum_size - 1) }

/-- Modelled from the spec: `CommandsInfo` — the map from dots to per-dot
info with lazy creation of bottom info on first access, plus the GC
tracking structures (the set of dots recorded committed and the committed
frontier reported by each process). -/
structure CommandsInfo where
  process_id : ProcessId
  n : Nat
  f : Nat
  fast_quorum_size : Nat
  dot_to_info : List (Dot × EPaxosInfo)
  committed_dots : List Dot
  frontiers : List (ProcessId × VClock)
  deriving DecidableEq, Repr

/-- Modelled from the spec: `CommandsInfo::new`. -/
def CommandsInfo.new (process_id : ProcessId) (n f fast_quorum_size : Nat) :
    CommandsInfo :=
  { process_id, n, f, fast_quorum_size
    dot_to_info := []
    committed_dots := []
    frontiers := [] }

/-- Modelled from the spec: `CommandsInfo::get` — return the dot's info,
materialising a bottom info on first access. -/
def CommandsInfo.get (c : CommandsInfo) (dot : Dot) :
    EPaxosInfo × CommandsInfo :=
  match listLookup c.dot_to_info dot with
  | some info => (info, c)
  | none =>
      let info := EPaxosInfo.new c.process_id c.n c.f c.fast_quorum_size
      (info, { c with dot_to_info := listInsert c.dot_to_info dot info })

/-- Store back a dot's (mutated) info — the write-back half of the `&mut`
reference returned by `CommandsInfo::get`. -/
def CommandsInfo.update (c : CommandsInfo) (dot : Dot) (info : EPaxosInfo) :
    CommandsInfo :=
  { c with dot_to_info := listInsert c.dot_to_info dot info }

/-- Modelled from the spec: `CommandsInfo::commit` — record the dot as
committed for GC. -/
def CommandsInfo.commit (c : CommandsInfo) (dot : Dot) : CommandsInfo :=
  { c with committed_dots := setInsert c.committed_dots dot }

/-- Modelled from the spec: `CommandsInfo::committed_by` — record a peer's
committed frontier. -/
def CommandsInfo.committed_by (c : CommandsInfo) (from_ : ProcessId)
    (committed : VClock) : CommandsInfo :=
  { c with frontiers := listInsert c.frontiers from_ committed }

/-- Whether a dot falls in one of the stable `(source, from_seq, to_seq)`
ranges. -/
def inStableRanges (stable : List (ProcessId × Nat × Nat)) (d : Dot) : Bool :=
  stable.any (fun r =>
    decide (d.source = r.1) && decide (r.2.1 ≤ d.sequence) &&
      decide (d.sequence ≤ r.2.2))

/-- Modelled from the spec: `CommandsInfo::gc` — remove the `CommandInfo` of
every dot in the stable ranges, returning how many were removed. -/
def CommandsInfo.gc (c : CommandsInfo) (stable : List (ProcessId × Nat × Nat)) :
    Nat × CommandsInfo :=
  let kept := c.dot_to_info.filter (fun p => ¬ inStableRanges stable p.1)
  (c.dot_to_info.length - kept.length, { c with dot_to_info := kept })

/-- Modelled from the spec: `BaseProcess` — identity, configuration, the
quorums chosen at discovery, the dot counter and the protocol metrics. -/
structure BaseProcess where
  process_id : ProcessId
  n : Nat
  f : Nat
  fast_quorum_size : Nat
  write_quorum_size : Nat
  all_processes : List ProcessId
  fast_quorum_set : List ProcessId
  write_quorum_set : List ProcessId
  counter : Nat
  fast_paths : Nat
  slow_paths : Nat
  stable_total : Nat
  deriving DecidableEq, Repr

/-- Modelled from the spec: `BaseProcess::all`. -/
def BaseProcess.all (bp : BaseProcess) : List ProcessId := bp.all_processes

/-- Modelled from the spec: `BaseProcess::all_but_me`. -/
def BaseProcess.all_but_me (bp : BaseProcess) : List ProcessId :=
  bp.all_processes.filter (fun p => ¬ p = bp.process_id)

/-- Modelled from the spec: `BaseProcess::fast_quorum`. -/
def BaseProcess.fast_quorum (bp : BaseProcess) : List ProcessId :=
  bp.fast_quorum_set

/-- Modelled from the spec: `BaseProcess::write_quorum`. -/
def BaseProcess.write_quorum (bp : BaseProcess) : List ProcessId :=
  bp.write_quorum_set

/-- Modelled from the spec: `BaseProcess::next_dot` — a fresh dot from the
monotonic per-process counter. -/
def BaseProcess.next_dot (bp : BaseProcess) : Dot × BaseProcess :=
  (⟨bp.process_id, bp.counter + 1⟩, { bp with counter := bp.counter + 1 })

/-- Modelled from the spec: the `fast_path` metric bump. -/
def BaseProcess.fast_path (bp : BaseProcess) : BaseProcess :=
  { bp with fast_paths := bp.fast_paths + 1 }

/-- Modelled from the spec: the `slow_path` metric bump. -/
def BaseProcess.slow_path (bp : BaseProcess) : BaseProcess :=
  { bp with slow_paths := bp.slow_paths + 1 }

/-- Modelled from the spec: the `stable` metric bump. -/
def BaseProcess.stable (bp : BaseProcess) (count : Nat) : BaseProcess :=
  { bp with stable_total := bp.stable_total + count }

/-- Modelled from the spec: `ExecutionInfo(dot, cmd, clock)` handed to the
dependency-graph executor. -/
structure ExecutionInfo where
  dot : Dot
  cmd : Command
  clock : VClock
  deriving DecidableEq, Repr

/-- `ExecutionInfo::new`. -/
def ExecutionInfo.new (dot : Dot) (cmd : Command) (clock : VClock) :
    ExecutionInfo :=
  { dot, cmd, clock }

/-- The EPaxos protocol messages (`Message` in the source). -/
inductive Message where
  | MCollect (dot : Dot) (cmd : Option Command) (clock : VClock)
      (quorum : List ProcessId)
  | MCollectAck (dot : Dot) (clock : VClock)
  | MCommit (dot : Dot) (value : ConsensusValue)
  | MConsensus (dot : Dot) (ballot : Ballot) (value : ConsensusValue)
  | MConsensusAck (dot : Dot) (ballot : Ballot)
  | MCommitDot (dot : Dot)
  | MGarbageCollection (committed : VClock)
  | MStable (stable : List (ProcessId × Nat × Nat))
  deriving DecidableEq, Repr

/-- The `Action` returned by the protocol handlers. -/
inductive Action where
  | ToSend (target : List ProcessId) (msg : Message)
  | ToForward (msg : Message)
  | Nothing
  deriving DecidableEq, Repr

/-- The `EPaxos` process state. -/
structure EPaxos where
  bp : BaseProcess
  keys_clocks : KeyClocks
  cmds : CommandsInfo
  to_executor : List ExecutionInfo
  deriving DecidableEq, Repr

/-- `EPaxos::handle_submit`: allocate a dot if none was supplied, compute
the command's clock through the key-clocks oracle (with no past since this
is the initial computation) and fan the `MCollect` out to the fast quorum. -/
def EPaxos.handle_submit (s : EPaxos) (dot? : Option Dot) (cmd : Command) :
    Action × EPaxos :=
  let db := match dot? with
    | some d => (d, s.bp)
    | none => s.bp.next_dot
  let dot := db.1
  let bp := db.2
  let cmd? := some cmd
  let kr := s.keys_clocks.add dot cmd? none
  let clock := kr.1
  let mcollect := Message.MCollect dot cmd? clock bp.fast_quorum
  (Action.ToSend bp.fast_quorum mcollect, { s with bp, keys_clocks := kr.2 })

/-- `EPaxos::handle_mcollect`: drop if the dot is no longer in `START`; keep
the remote clock untouched when the message is from self, otherwise compute
the clock with the remote clock as past; move to `COLLECT`, store the
quorum, seed the synod with the consensus value (whose `maybe_set_value`
must succeed, `none` embedding the assertion failure) and ack to `from`. -/
def EPaxos.handle_mcollect (s : EPaxos) (from_ : ProcessId) (dot : Dot)
    (cmd : Option Command) (quorum : List ProcessId)
    (remote_clock : VClock) : Option (Action × EPaxos) :=
  let gr := s.cmds.get dot
  let info := gr.1
  let cmds := gr.2
  if info.status ≠ Status.START then some (Action.Nothing, { s with cmds })
  else
    let message_from_self := from_ = s.bp.process_id
    let kr :=
      if message_from_self then (remote_clock, s.keys_clocks)
      else s.keys_clocks.add dot cmd (some remote_clock)
    let clock := kr.1
    let value := ConsensusValue.with_ cmd clock
    let mr := info.synod.maybe_set_value value
    if mr.1 then
      let info := { info with status := Status.COLLECT, quorum, synod := mr.2 }
      some (Action.ToSend [from_] (Message.MCollectAck dot clock),
        { s with cmds := cmds.update dot info, keys_clocks := kr.2 })
    else none

/-- `EPaxos::handle_mcollectack`: ignore acks from self; drop when no longer
in `COLLECT`; otherwise merge the reported clock and, once all expected
clocks are in, either take the fast path (`MCommit` to all when all reports
are equal) or the slow path (`MConsensus` at the `skip_prepare` ballot to
the write quorum). -/
def EPaxos.handle_mcollectack (s : EPaxos) (from_ : ProcessId) (dot : Dot)
    (clock : VClock) : Action × EPaxos :=
  if from_ = s.bp.process_id then (Action.Nothing, s)
  else
    let gr := s.cmds.get dot
    let cmds := gr.2
    if gr.1.status ≠ Status.COLLECT then (Action.Nothing, { s with cmds })
    else
      let quorum_clocks := gr.1.quorum_clocks.add from_ clock
      let info := { gr.1 with quorum_clocks }
      if quorum_clocks.all then
        let ur := quorum_clocks.union
        let final_clock := ur.1
        let all_equal := ur.2
        let cmd := info.synod.value.cmd
        let value := ConsensusValue.with_ cmd final_clock
        if all_equal then
          let bp := s.bp.fast_path
          (Action.ToSend bp.all (Message.MCommit dot value),
            { s with bp, cmds := cmds.update dot info })
        else
          let bp := s.bp.slow_path
          let pr := info.synod.skip_prepare
          let info := { info with synod := pr.2 }
          (Action.ToSend bp.write_quorum (Message.MConsensus dot pr.1 value),
            { s with bp, cmds := cmds.update dot info })
      else
        (Action.Nothing, { s with cmds := cmds.update dot info })

/-- `EPaxos::handle_mcommit`: drop if already `COMMIT`; otherwise move to
`COMMIT`, feed `MChosen(value)` to the synod (which must return `none`, the
assertion failure embedded as outer `none`), enqueue an `ExecutionInfo`
when the value carries a command, and record the dot as committed. -/
def EPaxos.handle_mcommit (s : EPaxos) (from_ : ProcessId) (dot : Dot)
    (value : ConsensusValue) : Option (Action × EPaxos) :=
  let gr := s.cmds.get dot
  let cmds := gr.2
  if gr.1.status = Status.COMMIT then some (Action.Nothing, { s with cmds })
  else
    let info := { gr.1 with status := Status.COMMIT }
    let hr := info.synod.handle from_ (SynodMessage.MChosen value)
    if hr.1.isSome then none
    else
      let info := { info with synod := hr.2 }
      let to_executor := match value.cmd with
        | some cmd => s.to_executor ++ [ExecutionInfo.new dot cmd value.clock]
        | none => s.to_executor
      some (Action.Nothing,
        { s with cmds := (cmds.update dot info).commit dot, to_executor })

/-- `EPaxos::handle_mconsensus`: delegate the accept to the per-dot synod;
reply `MConsensusAck` when accepted, `MCommit` when the value was already
chosen, nothing when the ballot is too low; any other synod output is a
`panic!`, embedded as `none`. -/
def EPaxos.handle_mconsensus (s : EPaxos) (from_ : ProcessId) (dot : Dot)
    (ballot : Ballot) (value : ConsensusValue) : Option (Action × EPaxos) :=
  let gr := s.cmds.get dot
  let hr := gr.1.synod.handle from_ (SynodMessage.MAccept ballot value)
  let info := { gr.1 with synod := hr.2 }
  let cmds := gr.2.update dot info
  match hr.1 with
  | some (SynodMessage.MAccepted b) =>
      some (Action.ToSend [from_] (Message.MConsensusAck dot b), { s with cmds })
  | some (SynodMessage.MChosen v) =>
      some (Action.ToSend [from_] (Message.MCommit dot v), { s with cmds })
  | none => some (Action.Nothing, { s with cmds })
  | _ => none

/-- `EPaxos::handle_mconsensusack`: feed the accepted message to the synod;
broadcast `MCommit` to all when the value becomes chosen, nothing when more
accepts are needed; any other synod output is a `panic!` (`none`). -/
def EPaxos.handle_mconsensusack (s : EPaxos) (from_ : ProcessId) (dot : Dot)
    (ballot : Ballot) : Option (Action × EPaxos) :=
  let gr := s.cmds.get dot
  let hr := gr.1.synod.handle from_ (SynodMessage.MAccepted ballot)
  let info := { gr.1 with synod := hr.2 }
  let cmds := gr.2.update dot info
  match hr.1 with
  | some (SynodMessage.MChosen v) =>
      some (Action.ToSend s.bp.all (Message.MCommit dot v), { s with cmds })
  | none => some (Action.Nothing, { s with cmds })
  | _ => none

/-- `EPaxos::handle_mcommit_dot`: asserts the sender is the process itself
(`none` embeds the assertion failure) and records the dot as committed. -/
def EPaxos.handle_mcommit_dot (s : EPaxos) (from_ : ProcessId) (dot : Dot) :
    Option (Action × EPaxos) :=
  if from_ = s.bp.process_id then
    some (Action.Nothing, { s with cmds := s.cmds.commit dot })
  else none

/-- `EPaxos::handle_mgc`: record the sender's committed frontier. -/
def EPaxos.handle_mgc (s : EPaxos) (from_ : ProcessId) (committed : VClock) :
    Action × EPaxos :=
  (Action.Nothing, { s with cmds := s.cmds.committed_by from_ committed })

/-- `EPaxos::handle_mstable`: asserts the sender is the process itself
(`none` embeds the assertion failure), garbage-collects the stable dots and
bumps the stability metric. -/
def EPaxos.handle_mstable (s : EPaxos) (from_ : ProcessId)
    (stable : List (ProcessId × Nat × Nat)) : Option (Action × EPaxos) :=
  if from_ = s.bp.process_id then
    let r := s.cmds.gc stable
    some (Action.Nothing, { s with cmds := r.2, bp := s.bp.stable r.1 })
  else none

/-- `EPaxos::handle`: the protocol message dispatcher. -/
def EPaxos.handle (s : EPaxos) (from_ : ProcessId) (msg : Message) :
    Option (Action × EPaxos) :=
  match msg with
  | .MCollect dot cmd clock quorum =>
      s.handle_mcollect from_ dot cmd quorum clock
  | .MCollectAck dot clock => some (s.handle_mcollectack from_ dot clock)
  | .MCommit dot value => s.handle_mcommit from_ dot value
  | .MConsensus dot ballot value =>
      s.handle_mconsensus from_ dot ballot value
  | .MConsensusAck dot ballot => s.handle_mconsensusack from_ dot ballot
  | .MCommitDot dot => s.handle_mcommit_dot from_ dot
  | .MGarbageCollection committed => some (s.handle_mgc from_ committed)
  | .MStable stable => s.handle_mstable from_ stable

/-! ## Basic lemmas about the container embeddings -/

theorem listLookup_listInsert_self {α β : Type} [DecidableEq α]
    (m : List (α × β)) (k : α) (v : β) :
    listLookup (listInsert m k v) k = some v := by
  induction m with
  | nil => simp [listInsert, listLookup]
  | cons hd tl ih =>
      obtain ⟨k', v'⟩ := hd
      by_cases h : k' = k
      · simp [listInsert, h, listLookup]
      · simp [listInsert, h, listLookup, ih]

theorem listLookup_listInsert_ne {α β : Type} [DecidableEq α]
    (m : List (α × β)) (k k' : α) (v : β) (h : k' ≠ k) :
    listLookup (listInsert m k v) k' = listLookup m k' := by
  induction m with
  | nil =>
      simp only [listInsert, listLookup]
      rw [if_neg (Ne.symm h)]
  | cons hd tl ih =>
      obtain ⟨k₀, v₀⟩ := hd
      simp only [listInsert]
      by_cases hk : k₀ = k
      · rw [if_pos hk]
        simp only [listLookup]
        rw [if_neg (Ne.symm h), if_neg (hk ▸ Ne.symm h)]
      · rw [if_neg hk]
        simp only [listLookup]
        by_cases hk' : k₀ = k'
        · rw [if_pos hk', if_pos hk']
        · rw [if_neg hk', if_neg hk', ih]

theorem listLookup_eq_none_of_not_mem {α β : Type} [DecidableEq α]
    (m : List (α × β)) (k : α) (h : k ∉ m.map Prod.fst) :
    listLookup m k = none := by
  induction m with
  | nil => simp [listLookup]
  | cons hd tl ih =>
      obtain ⟨k₀, v₀⟩ := hd
      simp only [List.map_cons, List.mem_cons, not_or] at h
      simp [listLookup, Ne.symm h.1, ih h.2]

theorem listLookup_listRemove_self {α β : Type} [DecidableEq α]
    (m : List (α × β)) (k : α) (h : (m.map Prod.fst).Nodup) :
    listLookup (listRemove m k) k = none := by
  induction m with
  | nil => simp [listRemove, listLookup]
  | cons hd tl ih =>
      obtain ⟨k₀, v₀⟩ := hd
      simp only [List.map_cons, List.nodup_cons] at h
      by_cases hk : k₀ = k
      · subst hk
        simpa [listRemove] using listLookup_eq_none_of_not_mem tl k₀ h.1
      · simp [listRemove, hk, listLookup, ih h.2]

theorem listLookup_filter_key {α β : Type} [DecidableEq α]
    (q : α → Bool) (m : List (α × β)) (k : α) :
    listLookup (m.filter (fun p => q p.1)) k =
      if q k then listLookup m k else none := by
  induction m with
  | nil => simp [listLookup]
  | cons hd tl ih =>
      obtain ⟨k₀, v₀⟩ := hd
      by_cases hk : k₀ = k
      · subst hk
        by_cases hq : q k₀
        · simp [List.filter_cons, hq, listLookup]
        · simp [List.filter_cons, hq, listLookup, ih]
      · by_cases hq : q k₀
        · simp [List.filter_cons, hq, listLookup, hk, ih]
        · simp [List.filter_cons, hq, listLookup, hk, ih]

theorem listInsert_map_fst {α β : Type} [DecidableEq α]
    (m : List (α × β)) (k : α) (v : β) :
    (listInsert m k v).map Prod.fst =
      if k ∈ m.map Prod.fst then m.map Prod.fst
      else m.map Prod.fst ++ [k] := by
  induction m with
  | nil => simp [listInsert]
  | cons hd tl ih =>
      obtain ⟨k₀, v₀⟩ := hd
      by_cases hk : k₀ = k
      · subst hk
        simp [listInsert]
      · by_cases hmem : k ∈ tl.map Prod.fst
        · simp [listInsert, hk, ih, hmem, Ne.symm hk]
        · simp [listInsert, hk, ih, hmem, Ne.symm hk]

theorem nodup_length_le_of_subset {α : Type} [DecidableEq α]
    (l₁ l₂ : List α) (h : l₁.Nodup) (hs : l₁ ⊆ l₂) :
    l₁.length ≤ l₂.length := by
  classical
  calc l₁.length = l₁.toFinset.card := (List.toFinset_card_of_nodup h).symm
    _ ≤ l₂.toFinset.card := Finset.card_le_card (fun x hx => by
        simp only [List.mem_toFinset] at hx ⊢
        exact hs hx)
    _ ≤ l₂.length := l₂.toFinset_card_le

theorem mem_setInsert_self {α : Type} [DecidableEq α] (s : List α) (a : α) :
    a ∈ setInsert s a := by
  by_cases h : a ∈ s <;> simp [setInsert, h]

theorem vjoin_self (c : VClock) : vjoin c c = c := by
  induction c with
  | nil => rfl
  | cons x xs ih => simp [vjoin, ih]

theorem CommandsInfo.get_of_lookup_some (c : CommandsInfo) (d : Dot)
    (i : EPaxosInfo) (h : listLookup c.dot_to_info d = some i) :
    c.get d = (i, c) := by
  simp [CommandsInfo.get, h]

theorem CommandsInfo.get_of_lookup_none (c : CommandsInfo) (d : Dot)
    (h : listLookup c.dot_to_info d = none) :
    c.get d =
      (EPaxosInfo.new c.process_id c.n c.f c.fast_quorum_size,
        CommandsInfo.mk c.process_id c.n c.f c.fast_quorum_size
          (listInsert c.dot_to_info d
            (EPaxosInfo.new c.process_id c.n c.f c.fast_quorum_size))
          c.committed_dots c.frontiers) := by
  simp [CommandsInfo.get, h]

theorem CommandsInfo.commit_dot_to_info (c : CommandsInfo) (d : Dot) :
    (c.commit d).dot_to_info = c.dot_to_info := rfl

theorem CommandsInfo.committed_by_dot_to_info (c : CommandsInfo)
    (from_ : ProcessId) (v : VClock) :
    (c.committed_by from_ v).dot_to_info = c.dot_to_info := rfl

theorem CommandsInfo.update_dot_to_info (c : CommandsInfo) (d : Dot)
    (i : EPaxosInfo) :
    (c.update d i).dot_to_info = listInsert c.dot_to_info d i := rfl

/-- The non-`COMMIT` branch of `handle_mcommit`, made explicit: the handler
returns `Action.Nothing`, stores the dot's info with status `COMMIT` and a
synod that recorded the chosen value, appends an `ExecutionInfo` exactly
when the value carries a command, and records the dot as committed. -/
theorem handle_mcommit_progress (s : EPaxos) (from_ : ProcessId) (dot : Dot)
    (value : ConsensusValue)
    (hs : (s.cmds.get dot).1.status ≠ Status.COMMIT) :
    s.handle_mcommit from_ dot value =
      some (Action.Nothing,
        EPaxos.mk s.bp s.keys_clocks
          (((s.cmds.get dot).2.update dot
            (EPaxosInfo.mk Status.COMMIT (s.cmds.get dot).1.quorum
              (Synod.mk (s.cmds.get dot).1.synod.process_id
                (s.cmds.get dot).1.synod.n (s.cmds.get dot).1.synod.f
                (s.cmds.get dot).1.synod.ballot true value true
                (s.cmds.get dot).1.synod.accepts)
              (s.cmds.get dot).1.quorum_clocks)).commit dot)
          (match value.cmd with
            | some cmd => s.to_executor ++ [ExecutionInfo.new dot cmd value.clock]
            | none => s.to_executor)) := by
  simp only [EPaxos.handle_mcommit]
  rw [if_neg hs]
  simp [Synod.handle]

theorem handle_mcommit_post (s : EPaxos) (from_ : ProcessId) (dot : Dot)
    (value : ConsensusValue) (a : Action) (s' : EPaxos)
    (h : s.handle_mcommit from_ dot value = some (a, s')) :
    a = Action.Nothing ∧
      ∃ i', listLookup s'.cmds.dot_to_info dot = some i' ∧
        i'.status = Status.COMMIT := by
  by_cases hs : (s.cmds.get dot).1.status = Status.COMMIT
  · simp only [EPaxos.handle_mcommit] at h
    rw [if_pos hs] at h
    simp only [Option.some.injEq, Prod.mk.injEq] at h
    obtain ⟨ha, hst⟩ := h
    refine ⟨ha.symm, (s.cmds.get dot).1, ?_, hs⟩
    subst hst
    cases hl : listLookup s.cmds.dot_to_info dot with
    | some i =>
        rw [CommandsInfo.get_of_lookup_some s.cmds dot i hl]
        simpa [CommandsInfo.get_of_lookup_some s.cmds dot i hl] using hl
    | none =>
        exfalso
        rw [CommandsInfo.get_of_lookup_none s.cmds dot hl] at hs
        simp [EPaxosInfo.new] at hs
  · rw [handle_mcommit_progress s from_ dot value hs] at h
    simp only [Option.some.injEq, Prod.mk.injEq] at h
    obtain ⟨ha, hst⟩ := h
    refine ⟨ha.symm,
      EPaxosInfo.mk Status.COMMIT (s.cmds.get dot).1.quorum
        (Synod.mk (s.cmds.get dot).1.synod.process_id
          (s.cmds.get dot).1.synod.n (s.cmds.get dot).1.synod.f
          (s.cmds.get dot).1.synod.ballot true value true
          (s.cmds.get dot).1.synod.accepts)
        (s.cmds.get dot).1.quorum_clocks, ?_, rfl⟩
    rw [← hst]
    simp [CommandsInfo.commit_dot_to_info, CommandsInfo.update_dot_to_info,
      listLookup_listInsert_self]

theorem foldl_vjoin_const (l : List (ProcessId × VClock)) (c0 : VClock)
    (h : ∀ q ∈ l, q.2 = c0) :
    l.foldl (fun acc p => vjoin acc p.2) c0 = c0 := by
  induction l with
  | nil => rfl
  | cons q l ih =>
      have hq : q.2 = c0 := h q (List.mem_cons_self q l)
      simp only [List.foldl_cons, hq, vjoin_self]
      exact ih (fun q hq' => h q (List.mem_cons_of_mem _ hq'))

/-- When the union reports all clocks pairwise equal, every reported clock
equals the joined clock. -/
theorem quorum_union_all_equal (qc : QuorumClocks) (h : qc.union.2 = true) :
    ∀ pc ∈ qc.clocks, pc.2 = qc.union.1 := by
  intro pc hpc
  rcases hc : qc.clocks with _ | ⟨⟨p0, c0⟩, rest⟩
  · rw [hc] at hpc
    simp at hpc
  · have hall : ∀ q ∈ rest, q.2 = c0 := by
      have h' := h
      simp only [QuorumClocks.union, hc, List.all_eq_true,
        decide_eq_true_eq] at h'
      exact h'
    have hu1 : qc.union.1 = c0 := by
      simp only [QuorumClocks.union, hc]
      exact foldl_vjoin_const rest c0 hall
    rw [hc] at hpc
    rcases List.mem_cons.mp hpc with hpc | hpc
    · rw [hpc, hu1]
    · rw [hu1]
      exact hall pc hpc

/-- Numeric rank of a status along `START → COLLECT → COMMIT`. -/
def Status.rank : Status → Nat
  | .START => 0
  | .COLLECT => 1
  | .COMMIT => 2

theorem Status.rank_le_commit (x : Status) :
    x.rank ≤ Status.COMMIT.rank := by
  cases x <;> simp [Status.rank]

theorem lookup_get_snd (c : CommandsInfo) (d0 k : Dot) :
    listLookup (c.get d0).2.dot_to_info k =
      if k = d0 then some (c.get d0).1 else listLookup c.dot_to_info k := by
  cases hl : listLookup c.dot_to_info d0 with
  | some i =>
      rw [CommandsInfo.get_of_lookup_some c d0 i hl]
      by_cases hk : k = d0
      · subst hk
        simp [hl]
      · simp [hk]
  | none =>
      rw [CommandsInfo.get_of_lookup_none c d0 hl]
      by_cases hk : k = d0
      · subst hk
        simp [listLookup_listInsert_self]
      · simp only [hk, if_false]
        exact listLookup_listInsert_ne c.dot_to_info d0 k _ hk

theorem lookup_get_update (c : CommandsInfo) (d0 k : Dot) (i₁ : EPaxosInfo) :
    listLookup ((c.get d0).2.update d0 i₁).dot_to_info k =
      if k = d0 then some i₁ else listLookup c.dot_to_info k := by
  simp only [CommandsInfo.update_dot_to_info]
  by_cases hk : k = d0
  · subst hk
    simp [listLookup_listInsert_self]
  · rw [listLookup_listInsert_ne _ _ _ _ hk]
    have h := lookup_get_snd c d0 k
    rw [if_neg hk] at h
    simp [hk, h]

theorem get_fst_of_lookup_some (c : CommandsInfo) (d0 : Dot)
    (i : EPaxosInfo) (hl : listLookup c.dot_to_info d0 = some i) :
    (c.get d0).1 = i := by
  rw [CommandsInfo.get_of_lookup_some c d0 i hl]

/-- The per-dot status stored in `c'` dominates the one stored in `c`,
wherever both are present. -/
def cmdsRankLe (c c' : CommandsInfo) : Prop :=
  ∀ k i i', listLookup c.dot_to_info k = some i →
    listLookup c'.dot_to_info k = some i' →
    i.status.rank ≤ i'.status.rank

theorem cmdsRankLe_of_eq (c c' : CommandsInfo)
    (h : c'.dot_to_info = c.dot_to_info) : cmdsRankLe c c' := by
  intro k i i' hb ha
  rw [h, hb] at ha
  cases ha
  exact Nat.le_refl _

theorem cmdsRankLe_get (c : CommandsInfo) (d0 : Dot) :
    cmdsRankLe c (c.get d0).2 := by
  intro k i i' hb ha
  rw [lookup_get_snd c d0 k] at ha
  by_cases hk : k = d0
  · rw [if_pos hk] at ha
    subst hk
    rw [get_fst_of_lookup_some c k i hb] at ha
    cases ha
    exact Nat.le_refl _
  · rw [if_neg hk] at ha
    rw [hb] at ha
    cases ha
    exact Nat.le_refl _

theorem cmdsRankLe_get_update (c : CommandsInfo) (d0 : Dot)
    (i₁ : EPaxosInfo)
    (hstat : ∀ i, listLookup c.dot_to_info d0 = some i →
      i.status.rank ≤ i₁.status.rank) :
    cmdsRankLe c ((c.get d0).2.update d0 i₁) := by
  intro k i i' hb ha
  rw [lookup_get_update c d0 k i₁] at ha
  by_cases hk : k = d0
  · rw [if_pos hk] at ha
    cases ha
    exact hstat i (hk ▸ hb)
  · rw [if_neg hk] at ha
    rw [hb] at ha
    cases ha
    exact Nat.le_refl _

theorem cmdsRankLe_commit (c c' : CommandsInfo) (d0 : Dot)
    (h : cmdsRankLe c c') : cmdsRankLe c (c'.commit d0) := by
  intro k i i' hb ha
  rw [CommandsInfo.commit_dot_to_info] at ha
  exact h k i i' hb ha

theorem handle_mcollect_rank_le (s : EPaxos) (from_ : ProcessId) (dot : Dot)
    (cmd : Option Command) (q : List ProcessId) (rc : VClock)
    (a : Action) (s' : EPaxos)
    (h : s.handle_mcollect from_ dot cmd q rc = some (a, s')) :
    cmdsRankLe s.cmds s'.cmds := by
  simp only [EPaxos.handle_mcollect] at h
  by_cases hst : (s.cmds.get dot).1.status ≠ Status.START
  · rw [if_pos hst] at h
    simp only [Option.some.injEq, Prod.mk.injEq] at h
    rw [← h.2]
    exact cmdsRankLe_get s.cmds dot
  · rw [if_neg hst] at h
    push_neg at hst
    split at h
    · split at h
      · simp only [Option.some.injEq, Prod.mk.injEq] at h
        rw [← h.2]
        refine cmdsRankLe_get_update s.cmds dot _ ?_
        intro i hb
        rw [get_fst_of_lookup_some s.cmds dot i hb] at hst
        rw [hst]
        exact Nat.zero_le _
      · exact Option.noConfusion h
    · split at h
      · simp only [Option.some.injEq, Prod.mk.injEq] at h
        rw [← h.2]
        refine cmdsRankLe_get_update s.cmds dot _ ?_
        intro i hb
        rw [get_fst_of_lookup_some s.cmds dot i hb] at hst
        rw [hst]
        exact Nat.zero_le _
      · exact Option.noConfusion h

theorem handle_mcollectack_rank_le (s : EPaxos) (from_ : ProcessId)
    (dot : Dot) (clock : VClock) (a : Action) (s' : EPaxos)
    (h : s.handle_mcollectack from_ dot clock = (a, s')) :
    cmdsRankLe s.cmds s'.cmds := by
  simp only [EPaxos.handle_mcollectack] at h
  split at h
  · simp only [Prod.mk.injEq] at h
    rw [← h.2]
    exact cmdsRankLe_of_eq _ _ rfl
  · split at h
    · simp only [Prod.mk.injEq] at h
      rw [← h.2]
      exact cmdsRankLe_get s.cmds dot
    · split at h
      · split at h
        · simp only [Prod.mk.injEq] at h
          rw [← h.2]
          refine cmdsRankLe_get_update s.cmds dot _ ?_
          intro i hb
          rw [get_fst_of_lookup_some s.cmds dot i hb]
        · simp only [Prod.mk.injEq] at h
          rw [← h.2]
          refine cmdsRankLe_get_update s.cmds dot _ ?_
          intro i hb
          rw [get_fst_of_lookup_some s.cmds dot i hb]
      · simp only [Prod.mk.injEq] at h
        rw [← h.2]
        refine cmdsRankLe_get_update s.cmds dot _ ?_
        intro i hb
        rw [get_fst_of_lookup_some s.cmds dot i hb]

theorem handle_mcommit_rank_le (s : EPaxos) (from_ : ProcessId) (dot : Dot)
    (value : ConsensusValue) (a : Action) (s' : EPaxos)
    (h : s.handle_mcommit from_ dot value = some (a, s')) :
    cmdsRankLe s.cmds s'.cmds := by
  by_cases hst : (s.cmds.get dot).1.status = Status.COMMIT
  · simp only [EPaxos.handle_mcommit] at h
    rw [if_pos hst] at h
    simp only [Option.some.injEq, Prod.mk.injEq] at h
    rw [← h.2]
    exact cmdsRankLe_get s.cmds dot
  · rw [handle_mcommit_progress s from_ dot value hst] at h
    simp only [Option.some.injEq, Prod.mk.injEq] at h
    rw [← h.2]
    refine cmdsRankLe_commit _ _ dot (cmdsRankLe_get_update s.cmds dot _ ?_)
    intro i hb
    exact Status.rank_le_commit _

theorem handle_mconsensus_rank_le (s : EPaxos) (from_ : ProcessId)
    (dot : Dot) (ballot : Ballot) (value : ConsensusValue) (a : Action)
    (s' : EPaxos)
    (h : s.handle_mconsensus from_ dot ballot value = some (a, s')) :
    cmdsRankLe s.cmds s'.cmds := by
  simp only [EPaxos.handle_mconsensus] at h
  split at h <;>
    first
    | exact Option.noConfusion h
    | (simp only [Option.some.injEq, Prod.mk.injEq] at h
       rw [← h.2]
       refine cmdsRankLe_get_update s.cmds dot _ ?_
       intro i hb
       rw [get_fst_of_lookup_some s.cmds dot i hb])

theorem handle_mconsensusack_rank_le (s : EPaxos) (from_ : ProcessId)
    (dot : Dot) (ballot : Ballot) (a : Action) (s' : EPaxos)
    (h : s.handle_mconsensusack from_ dot ballot = some (a, s')) :
    cmdsRankLe s.cmds s'.cmds := by
  simp only [EPaxos.handle_mconsensusack] at h
  split at h <;>
    first
    | exact Option.noConfusion h
    | (simp only [Option.some.injEq, Prod.mk.injEq] at h
       rw [← h.2]
       refine cmdsRankLe_get_update s.cmds dot _ ?_
       intro i hb
       rw [get_fst_of_lookup_some s.cmds dot i hb])

theorem handle_mstable_rank_le (s : EPaxos) (from_ : ProcessId)
    (stable : List (ProcessId × Nat × Nat)) (a : Action) (s' : EPaxos)
    (h : s.handle_mstable from_ stable = some (a, s')) :
    cmdsRankLe s.cmds s'.cmds := by
  simp only [EPaxos.handle_mstable] at h
  split at h
  · simp only [Option.some.injEq, Prod.mk.injEq] at h
    rw [← h.2]
    intro k i i' hb ha
    simp only [CommandsInfo.gc] at ha
    rw [listLookup_filter_key (fun x => decide ¬ inStableRanges stable x = true)
      s.cmds.dot_to_info k] at ha
    split at ha
    · rw [hb] at ha
      cases ha
      exact Nat.le_refl _
    · exact Option.noConfusion ha
  · exact Option.noConfusion h

/-! ## Claim theorems -/

/-- C7: the synod acceptor ignores stale ballots asymmetrically:
`handle_prepare b` replies `MPromise b accepted` and moves the ballot to `b`
exactly when `b` is strictly above the current ballot, and returns `none`
leaving the state unchanged otherwise; `handle_accept b slot v` moves the
ballot to `b`, records `accepted[slot] = (b, v)` and replies
`MAccepted b slot` exactly when `b` is at or above the current ballot, and
returns `none` leaving the state unchanged otherwise. -/
theorem acceptor_stale_ballot_asymmetry {V : Type} [DecidableEq V]
    (a : Acceptor V) (b : Ballot) (slot : Slot) (v : V) :
    (b > a.ballot →
       a.handle_prepare b =
         (some (.MPromise b a.accepted), { a with ballot := b }))
  ∧ (¬ b > a.ballot → a.handle_prepare b = (none, a))
  ∧ ((a.handle_prepare b).1.isSome ↔ b > a.ballot)
  ∧ (b ≥ a.ballot →
       a.handle_accept b slot v =
         (some (.MAccepted b slot),
           { ballot := b, accepted := listInsert a.accepted slot (b, v) })
       ∧ (a.handle_accept b slot v).2.ballot = b
       ∧ listLookup (a.handle_accept b slot v).2.accepted slot = some (b, v))
  ∧ (¬ b ≥ a.ballot → a.handle_accept b slot v = (none, a))
  ∧ ((a.handle_accept b slot v).1.isSome ↔ b ≥ a.ballot) := by
  refine ⟨?_, ?_, ?_, ?_, ?_, ?_⟩
  · intro h
    simp [Acceptor.handle_prepare, h]
  · intro h
    simp [Acceptor.handle_prepare, h]
  · by_cases h : b > a.ballot <;> simp [Acceptor.handle_prepare, h]
  · intro h
    refine ⟨by simp [Acceptor.handle_accept, h], ?_, ?_⟩ <;>
      simp [Acceptor.handle_accept, h, listLookup_listInsert_self]
  · intro h
    simp [Acceptor.handle_accept, h]
  · by_cases h : b ≥ a.ballot <;> simp [Acceptor.handle_accept, h]

/-- C7 witness: the asymmetry evaluated on a concrete acceptor with ballot
`3`: ballot `3` is rejected by prepare but accepted by accept. -/
theorem acceptor_stale_ballot_asymmetry_witness :
    (Acceptor.handle_prepare (V := Nat) ⟨3, []⟩ 3 = (none, ⟨3, []⟩))
  ∧ (Acceptor.handle_accept (V := Nat) ⟨3, []⟩ 3 7 42 =
      (some (.MAccepted 3 7), ⟨3, [(7, 3, 42)]⟩)) :=
  ⟨((acceptor_stale_ballot_asymmetry (V := Nat) ⟨3, []⟩ 3 7 42).2.1) (by decide),
    by
      have h := ((acceptor_stale_ballot_asymmetry
        (V := Nat) ⟨3, []⟩ 3 7 42).2.2.2.1) (by decide)
      simpa [listInsert] using h.1⟩

/-- C9: `MultiSynod::submit` at a non-leader returns `MForwardSubmit v` and
changes no state; at the believed leader every call returns
`MSpawnCommander ballot slot v` with `slot` the freshly bumped, strictly
increasing counter; a leader bootstrapped as initial leader has ballot
equal to its own process id and a slot counter starting at `0`, so its
first submit uses slot `1`. -/
theorem multisynod_submit_spec {V : Type} (s : MultiSynod V) (v : V)
    (pid initial : ProcessId) (n f : Nat) :
    (s.leader.is_leader = false → s.submit v = (.MForwardSubmit v, s))
  ∧ (s.leader.is_leader = true →
       s.submit v =
         (.MSpawnCommander s.leader.ballot (s.leader.last_slot + 1) v,
           { s with leader :=
               { s.leader with last_slot := s.leader.last_slot + 1 } }))
  ∧ ((Leader.new pid initial).is_leader = true →
       (Leader.new pid initial).ballot = pid)
  ∧ (MultiSynod.new V pid pid n f).leader.last_slot = 0 := by
  refine ⟨?_, ?_, ?_, ?_⟩
  · intro h
    simp [MultiSynod.submit, Leader.try_submit, h]
  · intro h
    simp [MultiSynod.submit, Leader.try_submit, h]
  · intro h
    simp only [Leader.new] at h ⊢
    simp only [decide_eq_true_eq] at h
    simp [h]
  · simp [MultiSynod.new, Leader.new]

/-- C9 witness: with initial leader `1`, a submit at process `2` forwards
and a first submit at process `1` spawns a commander at ballot `1`,
slot `1`. -/
theorem multisynod_submit_spec_witness :
    (MultiSynod.new Nat 2 1 3 1).submit 30 =
      (.MForwardSubmit 30, MultiSynod.new Nat 2 1 3 1)
  ∧ (MultiSynod.new Nat 1 1 3 1).submit 10 =
      (.MSpawnCommander 1 1 10,
        { MultiSynod.new Nat 1 1 3 1 with
            leader := { (MultiSynod.new Nat 1 1 3 1).leader with
                          last_slot := 1 } }) :=
  ⟨(multisynod_submit_spec (MultiSynod.new Nat 2 1 3 1) 30 1 1 3 1).1
      (by decide),
    by
      have h := (multisynod_submit_spec (MultiSynod.new Nat 1 1 3 1)
        10 1 1 3 1).2.1 (by decide)
      simpa [MultiSynod.new, Leader.new] using h⟩

/-- C10: the `MStable` and `MCommitDot` handlers require a local sender:
for any `from` different from the process's own id both handlers abort
(the embedded assertion fails, i.e. the result is `none`); when `from` is
the process's own id the assertion passes and each returns
`Action.Nothing`. -/
theorem gc_handlers_require_local_sender (s : EPaxos) (from_ : ProcessId)
    (dot : Dot) (stable : List (ProcessId × Nat × Nat)) :
    (from_ ≠ s.bp.process_id →
       s.handle_mcommit_dot from_ dot = none
       ∧ s.handle_mstable from_ stable = none)
  ∧ (from_ = s.bp.process_id →
       s.handle_mcommit_dot from_ dot =
         some (Action.Nothing, { s with cmds := s.cmds.commit dot })
       ∧ ∃ s', s.handle_mstable from_ stable = some (Action.Nothing, s')) := by
  constructor
  · intro h
    constructor <;> simp [EPaxos.handle_mcommit_dot, EPaxos.handle_mstable, h]
  · intro h
    refine ⟨by simp [EPaxos.handle_mcommit_dot, h], ?_⟩
    refine ⟨EPaxos.mk (s.bp.stable (s.cmds.gc stable).1) s.keys_clocks
      (s.cmds.gc stable).2 s.to_executor, ?_⟩
    simp [EPaxos.handle_mstable, h]

/-- C10 witness: at a concrete process with id `1`, sender `2` aborts both
handlers and sender `1` is accepted. -/
theorem gc_handlers_require_local_sender_witness :
    (EPaxos.handle_mcommit_dot
        ⟨⟨1, 3, 1, 2, 2, [1, 2, 3], [1, 2], [1, 2], 0, 0, 0, 0⟩,
          KeyClocks.new 3, CommandsInfo.new 1 3 1 2, []⟩ 2 ⟨1, 1⟩ = none)
  ∧ (EPaxos.handle_mstable
        ⟨⟨1, 3, 1, 2, 2, [1, 2, 3], [1, 2], [1, 2], 0, 0, 0, 0⟩,
          KeyClocks.new 3, CommandsInfo.new 1 3 1 2, []⟩ 2 [] = none)
  ∧ (EPaxos.handle_mcommit_dot
        ⟨⟨1, 3, 1, 2, 2, [1, 2, 3], [1, 2], [1, 2], 0, 0, 0, 0⟩,
          KeyClocks.new 3, CommandsInfo.new 1 3 1 2, []⟩ 1 ⟨1, 1⟩ =
      some (Action.Nothing,
        ⟨⟨1, 3, 1, 2, 2, [1, 2, 3], [1, 2], [1, 2], 0, 0, 0, 0⟩,
          KeyClocks.new 3,
          (CommandsInfo.new 1 3 1 2).commit ⟨1, 1⟩, []⟩)) := by
  have h₂ := gc_handlers_require_local_sender
    ⟨⟨1, 3, 1, 2, 2, [1, 2, 3], [1, 2], [1, 2], 0, 0, 0, 0⟩,
      KeyClocks.new 3, CommandsInfo.new 1 3 1 2, []⟩ 2 ⟨1, 1⟩ []
  have h₁ := gc_handlers_require_local_sender
    ⟨⟨1, 3, 1, 2, 2, [1, 2, 3], [1, 2], [1, 2], 0, 0, 0, 0⟩,
      KeyClocks.new 3, CommandsInfo.new 1 3 1 2, []⟩ 1 ⟨1, 1⟩ []
  exact ⟨(h₂.1 (by decide)).1, (h₂.1 (by decide)).2, (h₁.2 rfl).1⟩

/-- C2: handling `MCommit` for a dot whose status is already `COMMIT` is a
no-op — the handler returns `Action.Nothing` and the whole state (per-dot
info, executor queue, committed set, everything) is exactly unchanged, so
in particular no additional `ExecutionInfo` is enqueued; and after any
successful `MCommit` the dot is `COMMIT`, so applying the same `MCommit`
twice has the same effect as applying it once (the second application
returns `Action.Nothing` and the identical state). The status hypothesis
is phrased through `CommandsInfo::get`, covering lazy materialization. -/
theorem mcommit_idempotent (s : EPaxos) (from_ : ProcessId) (dot : Dot)
    (value : ConsensusValue) :
    ((s.cmds.get dot).1.status = Status.COMMIT →
       s.handle_mcommit from_ dot value = some (Action.Nothing, s))
  ∧ (∀ a s', s.handle_mcommit from_ dot value = some (a, s') →
       s'.handle_mcommit from_ dot value = some (Action.Nothing, s')) := by
  constructor
  · intro hs
    cases hl : listLookup s.cmds.dot_to_info dot with
    | some i =>
        have hs' : i.status = Status.COMMIT := by
          rw [CommandsInfo.get_of_lookup_some s.cmds dot i hl] at hs
          exact hs
        simp only [EPaxos.handle_mcommit,
          CommandsInfo.get_of_lookup_some s.cmds dot i hl]
        rw [if_pos hs']
    | none =>
        exfalso
        rw [CommandsInfo.get_of_lookup_none s.cmds dot hl] at hs
        simp [EPaxosInfo.new] at hs
  · intro a s' h
    obtain ⟨ha, i', hl', hs'⟩ :=
      handle_mcommit_post s from_ dot value a s' h
    simp only [EPaxos.handle_mcommit,
      CommandsInfo.get_of_lookup_some s'.cmds dot i' hl']
    rw [if_pos hs']

/-- C2 witness: a concrete process whose dot `(1, 1)` is already `COMMIT`
drops a further `MCommit` for it with the state exactly unchanged; and a
first `MCommit` taking dot `(1, 1)` from `START` to `COMMIT` followed by
the same `MCommit` again ends in the same state as the single application,
with the duplicate returning `Action.Nothing`. -/
theorem mcommit_idempotent_witness :
    (EPaxos.handle_mcommit
      (EPaxos.mk ⟨1, 3, 1, 2, 2, [1, 2, 3], [1, 2], [1, 2], 0, 0, 0, 0⟩
        (KeyClocks.new 3)
        (CommandsInfo.mk 1 3 1 2
          [(⟨1, 1⟩, EPaxosInfo.mk Status.COMMIT []
            (Synod.new 1 3 1 (ConsensusValue.new 3)) (QuorumClocks.new 1))]
          [] [])
        [])
      2 ⟨1, 1⟩ (ConsensusValue.new 3) =
      some (Action.Nothing,
        EPaxos.mk ⟨1, 3, 1, 2, 2, [1, 2, 3], [1, 2], [1, 2], 0, 0, 0, 0⟩
          (KeyClocks.new 3)
          (CommandsInfo.mk 1 3 1 2
            [(⟨1, 1⟩, EPaxosInfo.mk Status.COMMIT []
              (Synod.new 1 3 1 (ConsensusValue.new 3)) (QuorumClocks.new 1))]
            [] [])
          []))
  ∧ (EPaxos.handle_mcommit
      (EPaxos.mk ⟨1, 3, 1, 2, 2, [1, 2, 3], [1, 2], [1, 2], 0, 0, 0, 0⟩
        (KeyClocks.new 3)
        (CommandsInfo.mk 1 3 1 2 [(⟨1, 1⟩, EPaxosInfo.new 1 3 1 2)] [] [])
        [])
      2 ⟨1, 1⟩ (ConsensusValue.with_ (some ⟨7, ["x"]⟩) [0, 0, 0]) =
      some (Action.Nothing,
        EPaxos.mk ⟨1, 3, 1, 2, 2, [1, 2, 3], [1, 2], [1, 2], 0, 0, 0, 0⟩
          (KeyClocks.new 3)
          (CommandsInfo.mk 1 3 1 2
            [(⟨1, 1⟩, EPaxosInfo.mk Status.COMMIT []
              (Synod.mk 1 3 1 0 true
                (ConsensusValue.with_ (some ⟨7, ["x"]⟩) [0, 0, 0]) true [])
              (QuorumClocks.mk 1 []))]
            [⟨1, 1⟩] [])
          [ExecutionInfo.new ⟨1, 1⟩ ⟨7, ["x"]⟩ [0, 0, 0]])
     ∧ EPaxos.handle_mcommit
        (EPaxos.mk ⟨1, 3, 1, 2, 2, [1, 2, 3], [1, 2], [1, 2], 0, 0, 0, 0⟩
          (KeyClocks.new 3)
          (CommandsInfo.mk 1 3 1 2
            [(⟨1, 1⟩, EPaxosInfo.mk Status.COMMIT []
              (Synod.mk 1 3 1 0 true
                (ConsensusValue.with_ (some ⟨7, ["x"]⟩) [0, 0, 0]) true [])
              (QuorumClocks.mk 1 []))]
            [⟨1, 1⟩] [])
          [ExecutionInfo.new ⟨1, 1⟩ ⟨7, ["x"]⟩ [0, 0, 0]])
        2 ⟨1, 1⟩ (ConsensusValue.with_ (some ⟨7, ["x"]⟩) [0, 0, 0]) =
        some (Action.Nothing,
          EPaxos.mk ⟨1, 3, 1, 2, 2, [1, 2, 3], [1, 2], [1, 2], 0, 0, 0, 0⟩
            (KeyClocks.new 3)
            (CommandsInfo.mk 1 3 1 2
              [(⟨1, 1⟩, EPaxosInfo.mk Status.COMMIT []
                (Synod.mk 1 3 1 0 true
                  (ConsensusValue.with_ (some ⟨7, ["x"]⟩) [0, 0, 0]) true [])
                (QuorumClocks.mk 1 []))]
              [⟨1, 1⟩] [])
            [ExecutionInfo.new ⟨1, 1⟩ ⟨7, ["x"]⟩ [0, 0, 0]])) := by
  refine ⟨(mcommit_idempotent
      (EPaxos.mk ⟨1, 3, 1, 2, 2, [1, 2, 3], [1, 2], [1, 2], 0, 0, 0, 0⟩
        (KeyClocks.new 3)
        (CommandsInfo.mk 1 3 1 2
          [(⟨1, 1⟩, EPaxosInfo.mk Status.COMMIT []
            (Synod.new 1 3 1 (ConsensusValue.new 3)) (QuorumClocks.new 1))]
          [] [])
        [])
      2 ⟨1, 1⟩ (ConsensusValue.new 3)).1 (by decide), by decide, ?_⟩
  exact (mcommit_idempotent
    (EPaxos.mk ⟨1, 3, 1, 2, 2, [1, 2, 3], [1, 2], [1, 2], 0, 0, 0, 0⟩
      (KeyClocks.new 3)
      (CommandsInfo.mk 1 3 1 2 [(⟨1, 1⟩, EPaxosInfo.new 1 3 1 2)] [] [])
      [])
    2 ⟨1, 1⟩ (ConsensusValue.with_ (some ⟨7, ["x"]⟩) [0, 0, 0])).2
    Action.Nothing _ (by decide)

/-- C8: handling `MCommit` for a dot not yet in status `COMMIT` — including
a never-seen dot, whose bottom `CommandInfo` is lazily materialized by
`CommandsInfo::get` at `START` — sets the status to `COMMIT`, feeds
`MChosen value` to the per-dot synod (which returns `none`), enqueues
exactly one `ExecutionInfo dot cmd clock` if and only if the value carries
a command (a noop enqueues nothing), records the dot as committed for GC,
and returns `Action.Nothing`. -/
theorem mcommit_commits_and_enqueues (s : EPaxos) (from_ : ProcessId)
    (dot : Dot) (value : ConsensusValue)
    (hs : (s.cmds.get dot).1.status ≠ Status.COMMIT) :
    ∃ s', s.handle_mcommit from_ dot value = some (Action.Nothing, s')
      ∧ ((s.cmds.get dot).1.synod.handle from_
          (SynodMessage.MChosen value)).1 = none
      ∧ (∃ i', listLookup s'.cmds.dot_to_info dot = some i'
           ∧ i'.status = Status.COMMIT
           ∧ i'.synod = ((s.cmds.get dot).1.synod.handle from_
               (SynodMessage.MChosen value)).2)
      ∧ (∀ cmd, value.cmd = some cmd →
           s'.to_executor = s.to_executor ++ [ExecutionInfo.new dot cmd value.clock])
      ∧ (value.cmd = none → s'.to_executor = s.to_executor)
      ∧ dot ∈ s'.cmds.committed_dots := by
  refine ⟨_, handle_mcommit_progress s from_ dot value hs, ?_, ?_, ?_, ?_, ?_⟩
  · simp [Synod.handle]
  · refine ⟨EPaxosInfo.mk Status.COMMIT (s.cmds.get dot).1.quorum
      (Synod.mk (s.cmds.get dot).1.synod.process_id
        (s.cmds.get dot).1.synod.n (s.cmds.get dot).1.synod.f
        (s.cmds.get dot).1.synod.ballot true value true
        (s.cmds.get dot).1.synod.accepts)
      (s.cmds.get dot).1.quorum_clocks, ?_, rfl, ?_⟩
    · simp [CommandsInfo.commit_dot_to_info, CommandsInfo.update_dot_to_info,
        listLookup_listInsert_self]
    · simp [Synod.handle]
  · intro cmd hc
    simp [hc]
  · intro hc
    simp [hc]
  · exact mem_setInsert_self _ dot

/-- C8 witness: at a process that has never seen dot `(1, 1)` (its map of
dots is empty — the lazily materialized bottom info is at `START`), an
`MCommit` carrying a command commits the dot and enqueues exactly one
`ExecutionInfo`; an `MCommit` carrying a noop for the never-seen dot
`(2, 5)` commits it enqueueing nothing. -/
theorem mcommit_commits_and_enqueues_witness :
    (((EPaxos.mk ⟨3, 3, 1, 2, 2, [3, 1, 2], [3, 1], [3, 1], 0, 0, 0, 0⟩
        (KeyClocks.new 3) (CommandsInfo.new 3 3 1 2)
        []).cmds.get ⟨1, 1⟩).1.status ≠ Status.COMMIT)
  ∧ (∃ s', EPaxos.handle_mcommit
        (EPaxos.mk ⟨3, 3, 1, 2, 2, [3, 1, 2], [3, 1], [3, 1], 0, 0, 0, 0⟩
          (KeyClocks.new 3) (CommandsInfo.new 3 3 1 2) [])
        1 ⟨1, 1⟩ (ConsensusValue.with_ (some ⟨7, ["x"]⟩) [1, 0, 0]) =
        some (Action.Nothing, s')
      ∧ s'.to_executor = [ExecutionInfo.new ⟨1, 1⟩ ⟨7, ["x"]⟩ [1, 0, 0]]
      ∧ ⟨1, 1⟩ ∈ s'.cmds.committed_dots
      ∧ (∃ i', listLookup s'.cmds.dot_to_info ⟨1, 1⟩ = some i'
           ∧ i'.status = Status.COMMIT))
  ∧ (∃ s', EPaxos.handle_mcommit
        (EPaxos.mk ⟨3, 3, 1, 2, 2, [3, 1, 2], [3, 1], [3, 1], 0, 0, 0, 0⟩
          (KeyClocks.new 3) (CommandsInfo.new 3 3 1 2) [])
        1 ⟨2, 5⟩ (ConsensusValue.with_ none [0, 0, 0]) =
        some (Action.Nothing, s')
      ∧ s'.to_executor = []
      ∧ ⟨2, 5⟩ ∈ s'.cmds.committed_dots) := by
  refine ⟨by decide, ?_, ?_⟩
  · obtain ⟨s', h₁, _, hi, h₄, _, h₆⟩ := mcommit_commits_and_enqueues
      (EPaxos.mk ⟨3, 3, 1, 2, 2, [3, 1, 2], [3, 1], [3, 1], 0, 0, 0, 0⟩
        (KeyClocks.new 3) (CommandsInfo.new 3 3 1 2) [])
      1 ⟨1, 1⟩ (ConsensusValue.with_ (some ⟨7, ["x"]⟩) [1, 0, 0]) (by decide)
    obtain ⟨i', hli, hsi, -⟩ := hi
    exact ⟨s', h₁, by simpa using h₄ ⟨7, ["x"]⟩ rfl, h₆, i', hli, hsi⟩
  · obtain ⟨s', h₁, -, -, -, h₅, h₆⟩ := mcommit_commits_and_enqueues
      (EPaxos.mk ⟨3, 3, 1, 2, 2, [3, 1, 2], [3, 1], [3, 1], 0, 0, 0, 0⟩
        (KeyClocks.new 3) (CommandsInfo.new 3 3 1 2) [])
      1 ⟨2, 5⟩ (ConsensusValue.with_ none [0, 0, 0]) (by decide)
    exact ⟨s', h₁, by simpa using h₅ rfl, h₆⟩

/-- C4: for any slot at most one value is ever chosen: a commander records
the distinct senders of `MAccepted` messages whose ballot equals its own,
reports chosen exactly when that set reaches size `f + 1`, is then removed
and yields its value exactly once as `MChosen slot value`; every
`MAccepted` for a slot with no commander — including any slot already
chosen, whose commander was destroyed — produces `none`. -/
theorem synod_slot_chosen_at_most_once {V : Type} [DecidableEq V]
    (s : MultiSynod V) (from_ : ProcessId) (b : Ballot) (slot : Slot) :
    (listLookup s.commanders slot = none →
       s.handle_maccepted from_ b slot = some (none, s))
  ∧ (∀ c, listLookup s.commanders slot = some c →
      (c.ballot ≠ b →
         s.handle_maccepted from_ b slot =
           some (none, MultiSynod.mk s.n s.f s.leader s.acceptor
             (listInsert s.commanders slot c)))
      ∧ (c.ballot = b → (setInsert c.accepts from_).length ≠ c.f + 1 →
         s.handle_maccepted from_ b slot =
           some (none, MultiSynod.mk s.n s.f s.leader s.acceptor
             (listInsert s.commanders slot
               (Commander.mk c.f c.ballot c.value (setInsert c.accepts from_)))))
      ∧ (c.ballot = b → (setInsert c.accepts from_).length = c.f + 1 →
         s.handle_maccepted from_ b slot =
           some (some (.MChosen slot c.value),
             MultiSynod.mk s.n s.f s.leader s.acceptor
               (listRemove s.commanders slot))
         ∧ ((s.commanders.map Prod.fst).Nodup →
             ∀ from₂ b₂,
               MultiSynod.handle_maccepted
                 (MultiSynod.mk s.n s.f s.leader s.acceptor
                   (listRemove s.commanders slot)) from₂ b₂ slot =
               some (none, MultiSynod.mk s.n s.f s.leader s.acceptor
                 (listRemove s.commanders slot))))) := by
  refine ⟨?_, ?_⟩
  · intro h
    simp [MultiSynod.handle_maccepted, h]
  · intro c hl
    refine ⟨?_, ?_, ?_⟩
    · intro hb
      simp [MultiSynod.handle_maccepted, hl, Commander.handle_accepted, hb]
    · intro hb hlen
      simp [MultiSynod.handle_maccepted, hl, Commander.handle_accepted, hb,
        hlen]
    · intro hb hlen
      constructor
      · simp [MultiSynod.handle_maccepted, hl, Commander.handle_accepted, hb,
          hlen, Commander.destroy]
      · intro hnd from₂ b₂
        have hrem : listLookup (listRemove s.commanders slot) slot = none :=
          listLookup_listRemove_self s.commanders slot hnd
        simp [MultiSynod.handle_maccepted, hrem]

/-- C4 witness: a commander for slot `1` at ballot `1` with `f = 1` and one
recorded accept becomes chosen on the second distinct accept, is removed,
and a further `MAccepted` for the slot is dropped. -/
theorem synod_slot_chosen_at_most_once_witness :
    (MultiSynod.handle_maccepted
      (MultiSynod.mk 3 1 (Leader.new 1 1) (Acceptor.new 1)
        [(1, Commander.mk 1 1 (10 : Nat) [1])]) 2 1 1 =
      some (some (.MChosen 1 10),
        MultiSynod.mk 3 1 (Leader.new 1 1) (Acceptor.new 1) []))
  ∧ (MultiSynod.handle_maccepted
      (MultiSynod.mk 3 1 (Leader.new 1 1) (Acceptor.new 1) []
        : MultiSynod Nat) 3 1 1 =
      some (none,
        MultiSynod.mk 3 1 (Leader.new 1 1) (Acceptor.new 1) [])) := by
  have h := ((synod_slot_chosen_at_most_once
    (MultiSynod.mk 3 1 (Leader.new 1 1) (Acceptor.new 1)
      [(1, Commander.mk 1 1 (10 : Nat) [1])]) 2 1 1).2
    (Commander.mk 1 1 (10 : Nat) [1]) (by decide)).2.2 rfl (by decide)
  refine ⟨?_, ?_⟩
  · have h1 := h.1
    simpa [listRemove] using h1
  · have h2 := h.2 (by decide) 3 1
    simpa [listRemove] using h2

/-- C3: a coordinator never counts its own `MCollectAck` — for every dot,
`handle_mcollectack` with `from` equal to the process's own id returns
`Action.Nothing` with the state untouched; the `quorum_clocks` aggregator
of a fresh `EPaxosInfo` is created with capacity `fast_quorum_size - 1`;
and an aggregator whose reporters are distinct members of a set `Q` (the
non-coordinator fast quorum, of size `fq - 1`) never holds more than
`Q.length` clocks, however many reports are merged. -/
theorem quorum_clocks_exclude_self (s : EPaxos) (from_ : ProcessId)
    (dot : Dot) (clock : VClock) (pid : ProcessId) (n f fq : Nat) :
    (from_ = s.bp.process_id →
       s.handle_mcollectack from_ dot clock = (Action.Nothing, s))
  ∧ (EPaxosInfo.new pid n f fq).quorum_clocks = QuorumClocks.new (fq - 1)
  ∧ (∀ (qc : QuorumClocks) (Q : List ProcessId) (p : ProcessId) (c : VClock),
       Q.Nodup → (qc.clocks.map Prod.fst).Nodup →
       (∀ x ∈ qc.clocks.map Prod.fst, x ∈ Q) → p ∈ Q →
       ((qc.add p c).clocks.map Prod.fst).Nodup
         ∧ (∀ x ∈ (qc.add p c).clocks.map Prod.fst, x ∈ Q)
         ∧ (qc.add p c).clocks.length ≤ Q.length) := by
  refine ⟨?_, rfl, ?_⟩
  · intro h
    simp [EPaxos.handle_mcollectack, h]
  · intro qc Q p c hQ hnd hsub hp
    have hkeys := listInsert_map_fst qc.clocks p c
    have haddc : (qc.add p c).clocks = listInsert qc.clocks p c := rfl
    have hlen : (qc.add p c).clocks.length =
        ((qc.add p c).clocks.map Prod.fst).length :=
      (List.length_map _ _).symm
    by_cases hmem : p ∈ qc.clocks.map Prod.fst
    · rw [if_pos hmem] at hkeys
      have h1 : (qc.add p c).clocks.map Prod.fst = qc.clocks.map Prod.fst := by
        rw [haddc, hkeys]
      refine ⟨h1 ▸ hnd, fun x hx => hsub x (h1 ▸ hx), ?_⟩
      rw [hlen, h1]
      exact nodup_length_le_of_subset _ _ hnd (fun x hx => hsub x hx)
    · rw [if_neg hmem] at hkeys
      have h1 : (qc.add p c).clocks.map Prod.fst =
          qc.clocks.map Prod.fst ++ [p] := by
        rw [haddc, hkeys]
      have hnd' : ((qc.add p c).clocks.map Prod.fst).Nodup := by
        rw [h1]
        refine List.Nodup.append hnd (List.nodup_singleton p) ?_
        intro x hx hx'
        simp only [List.mem_singleton] at hx'
        exact hmem (hx' ▸ hx)
      have hsub' : ∀ x ∈ (qc.add p c).clocks.map Prod.fst, x ∈ Q := by
        intro x hx
        rw [h1] at hx
        rcases List.mem_append.mp hx with hx | hx
        · exact hsub x hx
        · simp only [List.mem_singleton] at hx
          exact hx ▸ hp
      refine ⟨hnd', hsub', ?_⟩
      rw [hlen]
      exact nodup_length_le_of_subset _ _ hnd' (fun x hx => hsub' x hx)

/-- C3 witness: at a process with id `1`, a self-ack is a no-op, a fresh
info for `fq = 2` expects one clock, and merging reports from the quorum
members `{2, 3}` twice over keeps the aggregator within two clocks. -/
theorem quorum_clocks_exclude_self_witness :
    (EPaxos.handle_mcollectack
      (EPaxos.mk ⟨1, 3, 1, 2, 2, [1, 2, 3], [1, 2], [1, 2], 0, 0, 0, 0⟩
        (KeyClocks.new 3) (CommandsInfo.new 1 3 1 2) []) 1 ⟨1, 1⟩ [0, 0, 0] =
      (Action.Nothing,
        EPaxos.mk ⟨1, 3, 1, 2, 2, [1, 2, 3], [1, 2], [1, 2], 0, 0, 0, 0⟩
          (KeyClocks.new 3) (CommandsInfo.new 1 3 1 2) []))
  ∧ (EPaxosInfo.new 1 3 1 2).quorum_clocks = QuorumClocks.new 1
  ∧ ((QuorumClocks.mk 2 [(2, [1, 0, 0])]).add 3 [0, 1, 0]).clocks.length ≤ 2 := by
  have h := quorum_clocks_exclude_self
    (EPaxos.mk ⟨1, 3, 1, 2, 2, [1, 2, 3], [1, 2], [1, 2], 0, 0, 0, 0⟩
      (KeyClocks.new 3) (CommandsInfo.new 1 3 1 2) []) 1 ⟨1, 1⟩ [0, 0, 0]
    1 3 1 2
  refine ⟨h.1 rfl, h.2.1, ?_⟩
  have h3 := h.2.2 (QuorumClocks.mk 2 [(2, [1, 0, 0])]) [2, 3] 3 [0, 1, 0]
    (by decide) (by decide) (by decide) (by decide)
  simpa using h3.2.2

/-- C1: when the last of the `fq - 1` expected non-self clocks arrives
while the dot is in `COLLECT`, the handler decides: if all reported clocks
are pairwise equal it sends `MCommit dot (ConsensusValue cmd joined)` to
all replicas — and that commit clock equals the clock reported by every
non-coordinator fast-quorum member; otherwise it sends
`MConsensus dot (skip_prepare ballot) (ConsensusValue cmd joined)` to the
write quorum. -/
theorem mcollectack_last_clock_decides (s : EPaxos) (from_ : ProcessId)
    (dot : Dot) (clock : VClock) (info : EPaxosInfo)
    (hf : from_ ≠ s.bp.process_id)
    (hl : listLookup s.cmds.dot_to_info dot = some info)
    (hst : info.status = Status.COLLECT)
    (hall : (info.quorum_clocks.add from_ clock).all = true) :
    ((info.quorum_clocks.add from_ clock).union.2 = true →
       (s.handle_mcollectack from_ dot clock).1 =
         Action.ToSend s.bp.all_processes
           (Message.MCommit dot
             (ConsensusValue.with_ info.synod.value.cmd
               (info.quorum_clocks.add from_ clock).union.1))
       ∧ ∀ pc ∈ (info.quorum_clocks.add from_ clock).clocks,
           pc.2 = (info.quorum_clocks.add from_ clock).union.1)
  ∧ ((info.quorum_clocks.add from_ clock).union.2 = false →
       (s.handle_mcollectack from_ dot clock).1 =
         Action.ToSend s.bp.write_quorum_set
           (Message.MConsensus dot info.synod.skip_prepare.1
             (ConsensusValue.with_ info.synod.value.cmd
               (info.quorum_clocks.add from_ clock).union.1))) := by
  have hget := CommandsInfo.get_of_lookup_some s.cmds dot info hl
  constructor
  · intro he
    constructor
    · simp only [EPaxos.handle_mcollectack, hget]
      rw [if_neg hf]
      simp only [hst]
      simp [hall, he, BaseProcess.fast_path, BaseProcess.all,
        Synod.value]
    · exact quorum_union_all_equal _ he
  · intro he
    simp only [EPaxos.handle_mcollectack, hget]
    rw [if_neg hf]
    simp only [hst]
    simp [hall, he, BaseProcess.slow_path, BaseProcess.write_quorum,
      Synod.value, Synod.skip_prepare]

/-- The coordinator state used to witness the fast/slow-path decision:
`n = 5`, `f = 2`, fast quorum `{1, 2, 3}`, dot `(1, 1)` in `COLLECT` with
one clock already reported by process `2`. -/
def decideWitnessState (reported : VClock) : EPaxos :=
  EPaxos.mk ⟨1, 5, 2, 3, 3, [1, 2, 3, 4, 5], [1, 2, 3], [1, 2, 3], 0, 0, 0, 0⟩
    (KeyClocks.new 5)
    (CommandsInfo.mk 1 5 2 3
      [(⟨1, 1⟩, EPaxosInfo.mk Status.COLLECT [1, 2, 3]
        (Synod.mk 1 5 2 0 true
          (ConsensusValue.with_ (some ⟨7, ["x"]⟩) [1, 0, 0, 0, 0]) false [])
        (QuorumClocks.mk 2 [(2, reported)]))]
      [] [])
    []

/-- C1 witness: with one clock `[1,0,0,0,0]` already reported by `2`, the
deciding ack from `3` takes the fast path when it carries the equal clock
(an `MCommit` with exactly that clock, sent to all five replicas) and the
slow path when it carries `[0,1,0,0,0]` (an `MConsensus` at ballot `1`
with the joined clock, sent to the write quorum). -/
theorem mcollectack_last_clock_decides_witness :
    ((decideWitnessState [1, 0, 0, 0, 0]).handle_mcollectack 3 ⟨1, 1⟩
        [1, 0, 0, 0, 0]).1 =
      Action.ToSend [1, 2, 3, 4, 5]
        (Message.MCommit ⟨1, 1⟩
          (ConsensusValue.with_ (some ⟨7, ["x"]⟩) [1, 0, 0, 0, 0]))
  ∧ ((decideWitnessState [1, 0, 0, 0, 0]).handle_mcollectack 3 ⟨1, 1⟩
        [0, 1, 0, 0, 0]).1 =
      Action.ToSend [1, 2, 3]
        (Message.MConsensus ⟨1, 1⟩ 1
          (ConsensusValue.with_ (some ⟨7, ["x"]⟩) [1, 1, 0, 0, 0])) := by
  have hfast := mcollectack_last_clock_decides
    (decideWitnessState [1, 0, 0, 0, 0]) 3 ⟨1, 1⟩ [1, 0, 0, 0, 0]
    (EPaxosInfo.mk Status.COLLECT [1, 2, 3]
      (Synod.mk 1 5 2 0 true
        (ConsensusValue.with_ (some ⟨7, ["x"]⟩) [1, 0, 0, 0, 0]) false [])
      (QuorumClocks.mk 2 [(2, [1, 0, 0, 0, 0])]))
    (by decide) (by decide) rfl (by decide)
  have hslow := mcollectack_last_clock_decides
    (decideWitnessState [1, 0, 0, 0, 0]) 3 ⟨1, 1⟩ [0, 1, 0, 0, 0]
    (EPaxosInfo.mk Status.COLLECT [1, 2, 3]
      (Synod.mk 1 5 2 0 true
        (ConsensusValue.with_ (some ⟨7, ["x"]⟩) [1, 0, 0, 0, 0]) false [])
      (QuorumClocks.mk 2 [(2, [1, 0, 0, 0, 0])]))
    (by decide) (by decide) rfl (by decide)
  constructor
  · have h := (hfast.1 (by decide)).1
    simpa [QuorumClocks.add, QuorumClocks.union, listInsert, vjoin,
      decideWitnessState, Synod.value] using h
  · have h := hslow.2 (by decide)
    simpa [QuorumClocks.add, QuorumClocks.union, listInsert, vjoin,
      decideWitnessState, Synod.value, Synod.skip_prepare] using h

/-- The self-delivery branch of `handle_mcollect`, made explicit: on a dot
in `START` whose synod value is not yet set, a coordinator handling its own
`MCollect` does not touch the key clocks, stores the remote clock verbatim
in the consensus value, and acks that clock back to itself. -/
theorem handle_mcollect_self_start (s : EPaxos) (dot : Dot)
    (cmd : Option Command) (q : List ProcessId) (c : VClock)
    (hst : (s.cmds.get dot).1.status = Status.START)
    (hvs : (s.cmds.get dot).1.synod.value_set = false) :
    s.handle_mcollect s.bp.process_id dot cmd q c =
      some (Action.ToSend [s.bp.process_id] (Message.MCollectAck dot c),
        EPaxos.mk s.bp s.keys_clocks
          ((s.cmds.get dot).2.update dot
            (EPaxosInfo.mk Status.COLLECT q
              (Synod.mk (s.cmds.get dot).1.synod.process_id
                (s.cmds.get dot).1.synod.n (s.cmds.get dot).1.synod.f
                (s.cmds.get dot).1.synod.ballot true
                (ConsensusValue.with_ cmd c)
                (s.cmds.get dot).1.synod.chosen
                (s.cmds.get dot).1.synod.accepts)
              (s.cmds.get dot).1.quorum_clocks))
          s.to_executor) := by
  simp only [EPaxos.handle_mcollect]
  rw [if_neg (by simp [hst])]
  simp [Synod.maybe_set_value, hvs]

/-- C6: when a coordinator handles its own `MCollect` for a dot in `START`,
the dependency clock is not recomputed: the clock in the emitted `MCollect`
is the one computed by the key-clocks oracle at submit, the key-clocks are
left untouched by the self-handling, the `MCollectAck` carries exactly the
remote clock and is targeted at `from` only, and the consensus value stored
for the dot holds that same clock. -/
theorem mcollect_self_no_recompute (s : EPaxos) (cmd : Command)
    (tgt q : List ProcessId) (dot : Dot) (c : VClock)
    (h : (s.handle_submit none cmd).1 =
      Action.ToSend tgt (Message.MCollect dot (some cmd) c q))
    (hst : ((s.handle_submit none cmd).2.cmds.get dot).1.status =
      Status.START)
    (hvs : ((s.handle_submit none cmd).2.cmds.get dot).1.synod.value_set =
      false) :
    c = (s.keys_clocks.add s.bp.next_dot.1 (some cmd) none).1
  ∧ ∃ s₂,
      (s.handle_submit none cmd).2.handle_mcollect s.bp.process_id dot
          (some cmd) q c =
        some (Action.ToSend [s.bp.process_id] (Message.MCollectAck dot c), s₂)
      ∧ s₂.keys_clocks = (s.handle_submit none cmd).2.keys_clocks
      ∧ ∃ i, listLookup s₂.cmds.dot_to_info dot = some i
           ∧ i.status = Status.COLLECT
           ∧ i.synod.value = ConsensusValue.with_ (some cmd) c := by
  have hc : (s.keys_clocks.add s.bp.next_dot.1 (some cmd) none).1 = c := by
    simp only [EPaxos.handle_submit, Action.ToSend.injEq,
      Message.MCollect.injEq] at h
    exact h.2.2.2.1
  refine ⟨hc.symm, ?_⟩
  have hrun := handle_mcollect_self_start (s.handle_submit none cmd).2 dot
    (some cmd) q c hst hvs
  refine ⟨_, hrun, rfl, ?_⟩
  refine ⟨EPaxosInfo.mk Status.COLLECT q
    (Synod.mk ((s.handle_submit none cmd).2.cmds.get dot).1.synod.process_id
      ((s.handle_submit none cmd).2.cmds.get dot).1.synod.n
      ((s.handle_submit none cmd).2.cmds.get dot).1.synod.f
      ((s.handle_submit none cmd).2.cmds.get dot).1.synod.ballot true
      (ConsensusValue.with_ (some cmd) c)
      ((s.handle_submit none cmd).2.cmds.get dot).1.synod.chosen
      ((s.handle_submit none cmd).2.cmds.get dot).1.synod.accepts)
    ((s.handle_submit none cmd).2.cmds.get dot).1.quorum_clocks, ?_, rfl, rfl⟩
  simp [CommandsInfo.update_dot_to_info, listLookup_listInsert_self]

/-- C6 witness: process `1` (n = 3) submits `⟨1, ["x"]⟩`, obtaining the
`MCollect` for dot `(1,1)` with clock `[0,0,0]`; handling it from itself
acks exactly that clock, leaves the key clocks alone and stores it. -/
theorem mcollect_self_no_recompute_witness :
    ([0, 0, 0] : VClock) =
      ((EPaxos.mk ⟨1, 3, 1, 2, 2, [1, 2, 3], [1, 2], [1, 2], 0, 0, 0, 0⟩
        (KeyClocks.new 3) (CommandsInfo.new 1 3 1 2)
        []).keys_clocks.add ⟨1, 1⟩ (some ⟨1, ["x"]⟩) none).1
  ∧ ∃ s₂,
      ((EPaxos.mk ⟨1, 3, 1, 2, 2, [1, 2, 3], [1, 2], [1, 2], 0, 0, 0, 0⟩
          (KeyClocks.new 3) (CommandsInfo.new 1 3 1 2)
          []).handle_submit none ⟨1, ["x"]⟩).2.handle_mcollect 1 ⟨1, 1⟩
          (some ⟨1, ["x"]⟩) [1, 2] [0, 0, 0] =
        some (Action.ToSend [1] (Message.MCollectAck ⟨1, 1⟩ [0, 0, 0]), s₂)
      ∧ s₂.keys_clocks =
          ((EPaxos.mk ⟨1, 3, 1, 2, 2, [1, 2, 3], [1, 2], [1, 2], 0, 0, 0, 0⟩
            (KeyClocks.new 3) (CommandsInfo.new 1 3 1 2)
            []).handle_submit none ⟨1, ["x"]⟩).2.keys_clocks
      ∧ ∃ i, listLookup s₂.cmds.dot_to_info ⟨1, 1⟩ = some i
           ∧ i.status = Status.COLLECT
           ∧ i.synod.value = ConsensusValue.with_ (some ⟨1, ["x"]⟩) [0, 0, 0] := by
  have h := mcollect_self_no_recompute
    (EPaxos.mk ⟨1, 3, 1, 2, 2, [1, 2, 3], [1, 2], [1, 2], 0, 0, 0, 0⟩
      (KeyClocks.new 3) (CommandsInfo.new 1 3 1 2) [])
    ⟨1, ["x"]⟩ [1, 2] [1, 2] ⟨1, 1⟩ [0, 0, 0]
    (by decide) (by decide) (by decide)
  exact ⟨by simpa using h.1, h.2⟩

/-- C5: for every dot, the status in its `CommandInfo` is non-decreasing
along `START → COLLECT → COMMIT` across any handled message — no handler
moves a dot's status from `COLLECT` or `COMMIT` back to an earlier one —
and `handle_mcollect` returns `Action.Nothing` with the state unchanged
when the dot's status is not `START`. -/
theorem status_monotone (s : EPaxos) (from_ : ProcessId) (m : Message)
    (d : Dot) :
    (∀ a s' i i', s.handle from_ m = some (a, s') →
       listLookup s.cmds.dot_to_info d = some i →
       listLookup s'.cmds.dot_to_info d = some i' →
       i.status.rank ≤ i'.status.rank)
  ∧ (∀ info cmd q rc, listLookup s.cmds.dot_to_info d = some info →
       info.status ≠ Status.START →
       s.handle_mcollect from_ d cmd q rc = some (Action.Nothing, s)) := by
  constructor
  · intro a s' i i' h hb ha
    cases m with
    | MCollect dot cmd clock quorum =>
        simp only [EPaxos.handle] at h
        exact handle_mcollect_rank_le s from_ dot cmd quorum clock a s'
          h d i i' hb ha
    | MCollectAck dot clock =>
        simp only [EPaxos.handle, Option.some.injEq] at h
        exact handle_mcollectack_rank_le s from_ dot clock a s' h d i i' hb ha
    | MCommit dot value =>
        simp only [EPaxos.handle] at h
        exact handle_mcommit_rank_le s from_ dot value a s' h d i i' hb ha
    | MConsensus dot ballot value =>
        simp only [EPaxos.handle] at h
        exact handle_mconsensus_rank_le s from_ dot ballot value a s'
          h d i i' hb ha
    | MConsensusAck dot ballot =>
        simp only [EPaxos.handle] at h
        exact handle_mconsensusack_rank_le s from_ dot ballot a s' h d i i' hb ha
    | MCommitDot dot =>
        simp only [EPaxos.handle, EPaxos.handle_mcommit_dot] at h
        split at h
        · simp only [Option.some.injEq, Prod.mk.injEq] at h
          rw [← h.2] at ha
          rw [show ({ s with cmds := s.cmds.commit dot } : EPaxos).cmds.dot_to_info
              = s.cmds.dot_to_info from rfl, hb] at ha
          cases ha
          exact Nat.le_refl _
        · exact Option.noConfusion h
    | MGarbageCollection committed =>
        simp only [EPaxos.handle, EPaxos.handle_mgc, Option.some.injEq,
          Prod.mk.injEq] at h
        rw [← h.2] at ha
        rw [show ({ s with cmds := s.cmds.committed_by from_ committed } :
            EPaxos).cmds.dot_to_info = s.cmds.dot_to_info from rfl, hb] at ha
        cases ha
        exact Nat.le_refl _
    | MStable stable =>
        simp only [EPaxos.handle] at h
        exact handle_mstable_rank_le s from_ stable a s' h d i i' hb ha
  · intro info cmd q rc hb hst
    have hget := CommandsInfo.get_of_lookup_some s.cmds d info hb
    simp only [EPaxos.handle_mcollect, hget]
    rw [if_pos hst]

/-- Pre-state for the C5 witness: dot `(1, 1)` held in `START`. -/
def monoWitnessPre : EPaxos :=
  EPaxos.mk ⟨1, 3, 1, 2, 2, [1, 2, 3], [1, 2], [1, 2], 0, 0, 0, 0⟩
    (KeyClocks.new 3)
    (CommandsInfo.mk 1 3 1 2 [(⟨1, 1⟩, EPaxosInfo.new 1 3 1 2)] [] []) []

/-- Post-info for the C5 witness: dot `(1, 1)` committed. -/
def monoWitnessInfo : EPaxosInfo :=
  EPaxosInfo.mk Status.COMMIT []
    (Synod.mk 1 3 1 0 true
      (ConsensusValue.with_ (some ⟨7, ["x"]⟩) [0, 0, 0]) true [])
    (QuorumClocks.mk 1 [])

/-- Post-state for the C5 witness. -/
def monoWitnessPost : EPaxos :=
  EPaxos.mk ⟨1, 3, 1, 2, 2, [1, 2, 3], [1, 2], [1, 2], 0, 0, 0, 0⟩
    (KeyClocks.new 3)
    (CommandsInfo.mk 1 3 1 2 [(⟨1, 1⟩, monoWitnessInfo)] [⟨1, 1⟩] [])
    [ExecutionInfo.new ⟨1, 1⟩ ⟨7, ["x"]⟩ [0, 0, 0]]

/-- C5 witness: an `MCommit` moves dot `(1, 1)` from `START` (rank 0) to
`COMMIT` (rank 2), and on the committed state a late `MCollect` for the dot
is dropped with the state unchanged. -/
theorem status_monotone_witness :
    (monoWitnessPre.handle 2
        (Message.MCommit ⟨1, 1⟩
          (ConsensusValue.with_ (some ⟨7, ["x"]⟩) [0, 0, 0])) =
      some (Action.Nothing, monoWitnessPost)
     ∧ listLookup monoWitnessPre.cmds.dot_to_info ⟨1, 1⟩ =
        some (EPaxosInfo.new 1 3 1 2)
     ∧ listLookup monoWitnessPost.cmds.dot_to_info ⟨1, 1⟩ =
        some monoWitnessInfo)
  ∧ (EPaxosInfo.new 1 3 1 2).status.rank ≤ monoWitnessInfo.status.rank
  ∧ monoWitnessPost.handle_mcollect 2 ⟨1, 1⟩ (some ⟨7, ["x"]⟩) [1, 2]
      [0, 0, 0] = some (Action.Nothing, monoWitnessPost) :=
  ⟨⟨by decide, by decide, by decide⟩,
    (status_monotone monoWitnessPre 2
      (Message.MCommit ⟨1, 1⟩
        (ConsensusValue.with_ (some ⟨7, ["x"]⟩) [0, 0, 0])) ⟨1, 1⟩).1
      Action.Nothing monoWitnessPost (EPaxosInfo.new 1 3 1 2) monoWitnessInfo
      (by decide) (by decide) (by decide),
    (status_monotone monoWitnessPost 2
      (Message.MCommit ⟨1, 1⟩
        (ConsensusValue.with_ (some ⟨7, ["x"]⟩) [0, 0, 0])) ⟨1, 1⟩).2
      monoWitnessInfo (some ⟨7, ["x"]⟩) [1, 2] [0, 0, 0]
      (by decide) (by decide)⟩

end Fantoch
